import Mathlib

/-!
# cgmon: verification of the tracker, analyzer and port-filter bytecode

Shallow embedding of the parts of `github.com/heistp/cgmon` needed to settle
the frozen claims:

* package `sampler` (the sample data model and `Data.EquivalentTo`),
* package `tracker` (the flow table: `update`, `cleanup`, `Track`),
* package `analyzer` (`flow.analyze` and its helpers), and
* the C filter-bytecode emitter `nl_port_filter` / `pfops` / `pfops_count`,
  together with the kernel interpreter semantics (`inet_diag_bc_run`).

Machine integers are modelled as `Nat` with explicit `% 2^w` where the Go code
can wrap (`uint64`/`uint32` subtraction and multiplication).  Go `float64`
arithmetic is modelled exactly: by `Rat` where the computation is rational, and
by `Real` where `math.Sqrt` enters (`stat.Correlation`, `adjustCorrelation`).
`stat.Correlation` returns NaN or an infinity exactly when its denominator
`sxx*syy` is zero, which the model exposes as an explicit test.
Go maps are modelled as lists in insertion order; map iteration order is
unspecified in Go, and nothing proved here depends on it.
-/

namespace Cgmon

/-! ## Package `sampler`: the data model -/

/-- sampler.ID: uniquely identifies samples within a sampler run
(source/destination IPv4 address and port). -/
structure SamplerID where
  srcIP : ℕ × ℕ × ℕ × ℕ
  srcPort : ℕ
  dstIP : ℕ × ℕ × ℕ × ℕ
  dstPort : ℕ
deriving DecidableEq, Repr

/-- sampler.Data: the sampled values for a flow.  Field widths in Go:
tstampNs/pacingRateBps/bytesAcked are uint64, options is uint8, and
rttUs/minRttUs/sndCwndBytes/totalRetransmits are uint32. -/
structure Data where
  tstampNs : ℕ
  options : ℕ
  rttUs : ℕ
  minRttUs : ℕ
  sndCwndBytes : ℕ
  pacingRateBps : ℕ
  totalRetransmits : ℕ
  bytesAcked : ℕ
deriving DecidableEq, Repr

/-- The zero value of sampler.Data (Go zero value). -/
def defaultData : Data := ⟨0, 0, 0, 0, 0, 0, 0, 0⟩

instance : Inhabited Data := ⟨defaultData⟩

/-- sampler.Data.EquivalentTo: true iff all fields excluding the timestamp
(and the options mask) are the same as the given data. -/
def Data.EquivalentTo (d d1 : Data) : Bool :=
  d.rttUs == d1.rttUs &&
  d.bytesAcked == d1.bytesAcked &&
  d.pacingRateBps == d1.pacingRateBps &&
  d.totalRetransmits == d1.totalRetransmits &&
  d.sndCwndBytes == d1.sndCwndBytes &&
  d.minRttUs == d1.minRttUs

/-- sampler.Sample: a sample ID and its data. -/
structure Sample where
  id : SamplerID
  data : Data
deriving DecidableEq, Repr

/-! ## Package `tracker` -/

/-- tracker.Flow: the data needed by the tracker for one flow.
`partFlag` models the Go field `Partial` (true if flow was pre-existing or no
final sample was seen); wall-clock times are nanoseconds as naturals. -/
structure Flow where
  id : SamplerID
  data : List Data
  startTime : ℕ
  endTime : ℕ
  filtered : Bool
  sampled : Bool
  preExisting : Bool
  partFlag : Bool
  samplesDeduped : ℕ
  endTstampNs : ℕ
deriving DecidableEq, Repr

/-- tracker.Tracker: configuration (MaxFlows, MinSamples) plus the flow table
and the first-track flag.  The Go `map[sampler.ID]*Flow` is modelled as a list
in insertion order; exactly one entry per ID exists on reachable states. -/
structure Tracker where
  maxFlows : ℕ
  minSamples : ℕ
  flows : List Flow
  firstTrack : Bool
deriving DecidableEq, Repr

/-- tracker.NewTracker with an empty flow table. -/
def NewTracker (maxFlows minSamples : ℕ) : Tracker :=
  ⟨maxFlows, minSamples, [], true⟩

/-- Go map lookup `t.flows[s.ID]`. -/
def findFlow (fs : List Flow) (id : SamplerID) : Option Flow :=
  fs.find? (fun f => f.id == id)

/-- The Flow literal built in Tracker.update for a previously unseen ID:
filtered when MaxFlows > 0 and the table would exceed it; non-filtered flows
initialize their data with the sample. -/
def newFlow (t : Tracker) (s : Sample) (now : ℕ) : Flow :=
  let filtered : Bool := 0 < t.maxFlows && t.maxFlows < t.flows.length + 1
  { id := s.id
    data := if filtered then [] else [s.data]
    startTime := now
    endTime := 0
    filtered := filtered
    sampled := true
    preExisting := t.firstTrack
    partFlag := true
    samplesDeduped := 0
    endTstampNs := s.data.tstampNs }

/-- The existing-flow branch of Tracker.update: mark sampled; for non-filtered
flows move endTstampNs to the sample's timestamp, then either de-duplicate
(when the last appended data is EquivalentTo the sample's) or append.
Go indexes `f.Data[len(f.Data)-1]`; on reachable states non-filtered flows
have non-empty data (proved below), so the default is never used. -/
def updateExisting (s : Sample) (f : Flow) : Flow :=
  if f.filtered then { f with sampled := true }
  else
    let f1 := { f with sampled := true, endTstampNs := s.data.tstampNs }
    if (f.data.getLastD defaultData).EquivalentTo s.data then
      { f1 with samplesDeduped := f1.samplesDeduped + 1 }
    else
      { f1 with data := f1.data ++ [s.data] }

/-- One iteration of the loop in Tracker.update (one input sample). -/
def updateOne (now : ℕ) (t : Tracker) (s : Sample) : Tracker :=
  match findFlow t.flows s.id with
  | none => { t with flows := t.flows ++ [newFlow t s now] }
  | some _ =>
      { t with flows := t.flows.map (fun f => if f.id == s.id then updateExisting s f else f) }

/-- tracker.Tracker.update: adds new and updates existing flows. -/
def update (t : Tracker) (ss : List Sample) (now : ℕ) : Tracker :=
  ss.foldl (updateOne now) t

/-- The mutation applied in Tracker.cleanup to a flow that was not sampled:
Partial := PreExisting, EndTime := now. -/
def endFlow (now : ℕ) (f : Flow) : Flow :=
  { f with partFlag := f.preExisting, endTime := now }

/-- The admission test in Tracker.cleanup: a non-filtered ended flow is
returned unless MinSamples > 0 and it has fewer than MinSamples samples. -/
def keepEnded (t : Tracker) (f : Flow) : Bool :=
  !f.filtered && !(decide (0 < t.minSamples) && decide (f.data.length < t.minSamples))

/-- tracker.Tracker.cleanup: flows not sampled in this tick are ended and
removed from the table (filtered ones silently); surviving flows have their
sampled flag cleared for the next tick. -/
def cleanup (t : Tracker) (now : ℕ) : Tracker × List Flow :=
  let ended := ((t.flows.filter (fun f => !f.sampled)).map (endFlow now)).filter (keepEnded t)
  ({ t with flows := (t.flows.filter (fun f => f.sampled)).map (fun f => { f with sampled := false }) },
   ended)

/-- tracker.Tracker.Track: update phase, then cleanup phase, then clear the
first-track flag. -/
def Track (t : Tracker) (ss : List Sample) (now : ℕ) : Tracker × List Flow :=
  let t1 := update t ss now
  let p := cleanup t1 now
  ({ p.1 with firstTrack := false }, p.2)

/-- A whole run: a sequence of ticks, each a sample batch with its wall time;
returns the final tracker and all ended flows output over the run. -/
def TrackRun (t : Tracker) : List (List Sample × ℕ) → Tracker × List Flow
  | [] => (t, [])
  | (ss, now) :: ticks =>
      let p := Track t ss now
      let q := TrackRun p.1 ticks
      (q.1, p.2 ++ q.2)

/-- Well-formedness of the flow table on reachable states: IDs are distinct
(the Go map guarantees one entry per ID) and non-filtered flows have
non-empty data. -/
def WF (t : Tracker) : Prop :=
  (t.flows.map (fun f => f.id)).Nodup ∧
  ∀ f ∈ t.flows, f.filtered = false → f.data ≠ []

instance (t : Tracker) : Decidable (WF t) := by
  unfold WF; infer_instance

/-- Number of non-filtered flows in a table. -/
def countNF (fs : List Flow) : ℕ := (fs.filter (fun f => !f.filtered)).length

/-! ## Package `analyzer` -/

/-- gonum stat.CumulantKind values used by the program. -/
inductive CumulantKind where
  | empirical
  | linInterp
deriving DecidableEq, Repr

/-- analyzer.Config.  SamplerInterval is `float64(time.Duration)`, i.e. the
interval in nanoseconds. -/
structure AConfig where
  samplerInterval : ℚ
  cumulantKind : CumulantKind
  unweightedCorrelations : Bool
  unweightedQuantiles : Bool
  adjustedCC1 : Bool
  adjustedCC2 : Bool
deriving Repr

/-- The sentinel CORR_UNDEFINED. -/
def CORR_UNDEFINED : ℤ := -2

/-- The sentinel CORR_INSUFFICIENT_SAMPLES. -/
def CORR_INSUFFICIENT_SAMPLES : ℤ := -3

/-- The seven-number-summary percentiles snsPcts. -/
def snsPcts : List ℚ := [2/100, 9/100, 25/100, 1/2, 75/100, 91/100, 98/100]

/-- analyzer flow.optSeen: true iff some retained (appended) sample of the
flow has the options bit set. -/
def optSeen (f : Flow) (opt : ℕ) : Bool :=
  f.data.any (fun d => d.options &&& opt != 0)

/-- analyzer usToMs. -/
def usToMs (us : ℕ) : ℚ := (us : ℚ) / 1000

/-- analyzer bytesPSToMbps. -/
def bytesPSToMbps (byps : ℕ) : ℚ := (byps : ℚ) * 8 / 1000000

/-- analyzer flow.minRTTObserved: minimum of RTTus over the samples,
starting from Data[0]. -/
def minRTTObserved (f : Flow) : ℕ :=
  match f.data with
  | [] => 0
  | d :: rest => rest.foldl (fun m x => Min.min m x.rttUs) d.rttUs

/-- analyzer flow.maxPacingRateObserved: maximum of PacingRateBps over the
samples, starting from Data[0]. -/
def maxPacingRateObserved (f : Flow) : ℕ :=
  match f.data with
  | [] => 0
  | d :: rest => rest.foldl (fun m x => Max.max m x.pacingRateBps) d.pacingRateBps

/-- analyzer flow.rtts: the RTT series in milliseconds. -/
def rtts (f : Flow) : List ℚ := f.data.map (fun d => usToMs d.rttUs)

/-- analyzer flow.cwnds: the cwnd series in bytes. -/
def cwnds (f : Flow) : List ℚ := f.data.map (fun d => (d.sndCwndBytes : ℚ))

/-- analyzer flow.pacing: the pacing-rate series in bytes per second. -/
def pacing (f : Flow) : List ℚ := f.data.map (fun d => (d.pacingRateBps : ℚ))

/-- uint64 subtraction `a - b` (wrapping), as in Go. -/
def subU64 (a b : ℕ) : ℕ := (a + 2 ^ 64 - b % 2 ^ 64) % 2 ^ 64

/-- uint32 subtraction `a - b` (wrapping), as in Go. -/
def subU32 (a b : ℕ) : ℕ := (a + 2 ^ 32 - b % 2 ^ 32) % 2 ^ 32

/-- analyzer flow.retransPerSec: entry 0 is 0; entry i is the retransmit delta
(uint32, wrapping) divided by the timestamp delta in seconds.  Go divides by a
float64 and would produce an infinity for a zero delta; the rational model
yields 0 there, a case never reached (timestamps of distinct retained samples
strictly increase). -/
def retransPerSec (f : Flow) : List ℚ :=
  match f.data with
  | [] => []
  | d0 :: rest =>
      0 :: ((d0 :: rest).zip rest).map (fun pc =>
        let deltaSec : ℚ := ((subU64 pc.2.tstampNs pc.1.tstampNs : ℕ) : ℚ) / 1000000000
        ((subU32 pc.2.totalRetransmits pc.1.totalRetransmits : ℕ) : ℚ) / deltaSec)

/-- Insertion sort on rationals, modelling sort.Float64s (ascending). -/
def insertAsc (x : ℚ) : List ℚ → List ℚ
  | [] => [x]
  | y :: ys => if x ≤ y then x :: y :: ys else y :: insertAsc x ys

/-- Ascending sort of a rational list (sort.Float64s). -/
def sortQ : List ℚ → List ℚ
  | [] => []
  | x :: xs => insertAsc x (sortQ xs)

/-- Insertion sort of value/weight pairs by value, modelling the joint sort
in flow.sevenNumSum (sort.Sort on tuples ordered by the value field). -/
def insertPairAsc (x : ℚ × ℚ) : List (ℚ × ℚ) → List (ℚ × ℚ)
  | [] => [x]
  | y :: ys => if x.1 ≤ y.1 then x :: y :: ys else y :: insertPairAsc x ys

/-- Joint ascending sort by value of value/weight pairs. -/
def sortPairs : List (ℚ × ℚ) → List (ℚ × ℚ)
  | [] => []
  | x :: xs => insertPairAsc x (sortPairs xs)

/-- The scan inside gonum stat.Quantile's empirical method: walk the sorted
values accumulating weights, returning the first value whose cumulative
weight reaches `fidx` (and the last value if none does). -/
def empiricalScan (fidx cum : ℚ) : List ℚ → List ℚ → ℚ
  | [], _ => 0
  | [x], _ => x
  | x :: xs, [] => if cum + 1 ≥ fidx then x else empiricalScan fidx (cum + 1) xs []
  | x :: xs, w :: ws => if cum + w ≥ fidx then x else empiricalScan fidx (cum + w) xs ws

/-- Modelled from the spec: gonum stat.Quantile with the Empirical cumulant
kind over ascending values (weights nil meaning weight 1 each).  gonum is a
library dependency whose source is not part of this repository. -/
def quantileEmpirical (p : ℚ) (xs : List ℚ) (ws : Option (List ℚ)) : ℚ :=
  let sumW : ℚ := match ws with
    | none => (xs.length : ℚ)
    | some w => w.sum
  empiricalScan (p * sumW) 0 xs (ws.getD [])

/-- The scan for the linear-interpolation method: find the bracketing values
by cumulative weight and interpolate linearly between them. -/
def linInterpScan (fidx cum : ℚ) (prev : ℚ) : List ℚ → List ℚ → ℚ
  | [], _ => prev
  | x :: xs, ws =>
      let w : ℚ := match ws with
        | [] => 1
        | w :: _ => w
      let ws' : List ℚ := match ws with
        | [] => []
        | _ :: t => t
      if cum + w ≥ fidx then
        if w = 0 then x else prev + (x - prev) * ((fidx - cum) / w)
      else linInterpScan fidx (cum + w) x xs ws'

/-- Modelled from the spec: gonum stat.Quantile with the LinInterp cumulant
kind — the linear-interpolation quantile over ascending values.  gonum is a
library dependency whose source is not part of this repository. -/
def quantileLinInterp (p : ℚ) (xs : List ℚ) (ws : Option (List ℚ)) : ℚ :=
  match xs with
  | [] => 0
  | x0 :: _ =>
      let sumW : ℚ := match ws with
        | none => (xs.length : ℚ)
        | some w => w.sum
      let fidx := p * sumW
      if fidx < 1 then x0
      else linInterpScan fidx 0 x0 xs (ws.getD [])

/-- Modelled from the spec: gonum stat.Quantile, dispatching on the cumulant
kind. -/
def quantileQ (p : ℚ) (k : CumulantKind) (xs : List ℚ) (ws : Option (List ℚ)) : ℚ :=
  match k with
  | .empirical => quantileEmpirical p xs ws
  | .linInterp => quantileLinInterp p xs ws

/-- The per-sample weight deltas of flow.sampleWeights: for i ≥ 1,
w[i] = (tstampNs[i] - tstampNs[i-1]) / samplerInterval (uint64 delta converted
to float64). -/
def weightTail (interval : ℚ) (ds : List Data) : List ℚ :=
  (ds.zip ds.tail).map (fun pc => ((subU64 pc.2.tstampNs pc.1.tstampNs : ℕ) : ℚ) / interval)

/-- analyzer flow.sampleWeights: `make` zero-fills, the loop sets w[1..], and
when the flow has more than one sample w[0] becomes the linear-interpolation
median of the sorted following weights. -/
def sampleWeights (cfg : AConfig) (f : Flow) : List ℚ :=
  match f.data with
  | [] => []
  | _ :: rest =>
      let tl := weightTail cfg.samplerInterval f.data
      (if rest.isEmpty then 0
       else quantileQ (1/2) .linInterp (sortQ tl) none) :: tl

/-- The sorted data/weight lists that flow.sevenNumSum hands to stat.Quantile:
in unweighted-quantile mode the sorted data with nil weights, otherwise the
jointly sorted value/weight pairs. -/
def sevenNumData (cfg : AConfig) (f : Flow) (d : List ℚ) : List ℚ × Option (List ℚ) :=
  if cfg.unweightedQuantiles then (sortQ d, none)
  else
    let pr := sortPairs (d.zip (sampleWeights cfg f))
    (pr.map (fun x => x.1), some (pr.map (fun x => x.2)))

/-- The weight list flow.sevenNumSum uses ([] in unweighted mode). -/
def sevenNumWeights (cfg : AConfig) (f : Flow) (d : List ℚ) : List ℚ :=
  ((sevenNumData cfg f d).2).getD []

/-- analyzer flow.sevenNumSum: the quantiles at snsPcts of the (possibly
weighted) series. -/
def sevenNumSum (cfg : AConfig) (f : Flow) (d : List ℚ) : List ℚ :=
  let dd := sevenNumData cfg f d
  snsPcts.map (fun p => quantileQ p cfg.cumulantKind dd.1 dd.2)

/-- Dot product of two rational lists (truncating at the shorter). -/
def dotQ (ws xs : List ℚ) : ℚ := (List.zipWith (fun w x => w * x) ws xs).sum

/-- Weighted mean as gonum stat.Mean computes it: dot(w,x)/sum(w) (with
weights nil modelled as weight 1 per element by the caller). -/
def wmean (xs ws : List ℚ) : ℚ := dotQ ws xs / ws.sum

/-- Weighted sum of products of deviations about the given means. -/
def devProdSum (ws xs ys : List ℚ) (mx my : ℚ) : ℚ :=
  (List.zipWith (fun w p => w * ((p.1 - mx) * (p.2 - my))) ws (xs.zip ys)).sum

/-- The cross-deviation sum computed inside gonum stat.Correlation (exact
arithmetic; the compensation terms of the float implementation vanish
exactly). `sxyQ xs xs ws` is the sxx term and `sxyQ ys ys ws` the syy term. -/
def sxyQ (xs ys ws : List ℚ) : ℚ :=
  devProdSum ws xs ys (wmean xs ws) (wmean ys ws)

/-- The weight list used for correlations: gonum treats nil weights as weight
1 per element; otherwise flow.sampleWeights is passed. -/
def corrWeights (cfg : AConfig) (f : Flow) : List ℚ :=
  if cfg.unweightedCorrelations then List.replicate f.data.length 1
  else sampleWeights cfg f

/-- analyzer isUndefined(stat.Correlation(x,y,w)): in exact arithmetic
stat.Correlation is NaN or an infinity precisely when sxx*syy = 0 (the
division by `math.Sqrt(sxx*syy)`). -/
def corrUndefined (xs ys ws : List ℚ) : Bool :=
  sxyQ xs xs ws * sxyQ ys ys ws == 0

/-- gonum stat.Correlation in exact arithmetic:
sxy / sqrt(sxx*syy). -/
noncomputable def correlationR (xs ys ws : List ℚ) : ℝ :=
  ((sxyQ xs ys ws : ℚ) : ℝ) / Real.sqrt (((sxyQ xs xs ws : ℚ) : ℝ) * ((sxyQ ys ys ws : ℚ) : ℝ))

/-- analyzer flow.adjustCorrelation.  The Go named return `radj` starts at the
zero value 0: under AdjustedCC2 with n ≤ 2 nothing assigns it, so 0 is
returned. -/
noncomputable def adjustCorrelation (cfg : AConfig) (f : Flow) (r : ℝ) : ℝ :=
  if cfg.adjustedCC1 then
    r * (1 + (1 - r * r) / 2 * (f.data.length : ℝ))
  else if cfg.adjustedCC2 then
    (if 2 < f.data.length then
      Real.sqrt (1 - ((1 - r * r) * ((f.data.length : ℝ) - 1)) / ((f.data.length : ℝ) - 2))
     else 0)
  else r

/-- One correlation field of flow.analyze: -3 when the flow has fewer than two
samples; otherwise stat.Correlation against the cwnd series, mapped to -2 when
undefined and otherwise adjusted. -/
noncomputable def corrField (cfg : AConfig) (f : Flow) (xs : List ℚ) : ℝ :=
  if 1 < f.data.length then
    if corrUndefined xs (cwnds f) (corrWeights cfg f) then ((-2 : ℤ) : ℝ)
    else adjustCorrelation cfg f (correlationR xs (cwnds f) (corrWeights cfg f))
  else ((-3 : ℤ) : ℝ)

/-- The uint64 value `uint64(s.EndTime.Sub(s.StartTime))`: wall-clock duration
in nanoseconds, an int64 reinterpreted as uint64 (wrapping for a negative
difference, never reached since EndTime follows StartTime). -/
def wallDurU64 (f : Flow) : ℕ :=
  (((f.endTime : ℤ) - (f.startTime : ℤ)) % (2 ^ 64 : ℤ)).toNat

/-- analyzer.FlowStats, restricted to the fields the claims are about.
`partFlag` models the Go field `Partial`. -/
structure FlowStats where
  tstampStartNs : ℕ
  startTime : ℕ
  endTime : ℕ
  durationNs : ℕ
  samples : ℕ
  samplesDeduped : ℕ
  partFlag : Bool
  timestamps : Bool
  sack : Bool
  ecn : Bool
  ecnSeen : Bool
  minRTTKernelms : ℚ
  minRTTObservedms : ℚ
  maxPacingRateObservedMbps : ℚ
  rttSevenNumSum : List ℚ
  corrRTTCwnd : ℝ
  corrRetransCwnd : ℝ
  corrPacingCwnd : ℝ
  totalRetransmits : ℕ
  bytesAcked : ℕ
  sendThroughputMbps : ℚ

/-- analyzer flow.analyze.  TCPI option bits: TIMESTAMPS=1, SACK=2, ECN=8,
ECN_SEEN=16.  The duration is `time.Duration(f.EndTstampNs - firstData.TstampNs)`
(uint64 subtraction), and the throughput converts the truncated integer
bytes-per-second value `1000000000*BytesAcked/uint64(EndTime.Sub(StartTime))`
(uint64 arithmetic). -/
noncomputable def analyze (cfg : AConfig) (f : Flow) : FlowStats :=
  { tstampStartNs := (f.data.headD defaultData).tstampNs
    startTime := f.startTime
    endTime := f.endTime
    durationNs := subU64 f.endTstampNs (f.data.headD defaultData).tstampNs
    samples := f.data.length
    samplesDeduped := f.samplesDeduped
    partFlag := f.partFlag
    timestamps := optSeen f 1
    sack := optSeen f 2
    ecn := optSeen f 8
    ecnSeen := optSeen f 16
    minRTTKernelms := usToMs (f.data.getLastD defaultData).minRttUs
    minRTTObservedms := usToMs (minRTTObserved f)
    maxPacingRateObservedMbps := bytesPSToMbps (maxPacingRateObserved f)
    rttSevenNumSum := sevenNumSum cfg f (rtts f)
    corrRTTCwnd := corrField cfg f (rtts f)
    corrRetransCwnd := corrField cfg f (retransPerSec f)
    corrPacingCwnd := corrField cfg f (pacing f)
    totalRetransmits := (f.data.getLastD defaultData).totalRetransmits
    bytesAcked := (f.data.getLastD defaultData).bytesAcked
    sendThroughputMbps :=
      bytesPSToMbps ((1000000000 * (f.data.getLastD defaultData).bytesAcked) % 2 ^ 64
        / wallDurU64 f) }

/-- The claim C3 throughput formula as the spec words it:
bytesAcked * 8 / (durationWall_ns / 1e9) / 1e6, in exact arithmetic. -/
def specThroughputMbps (bytesAcked durNs : ℕ) : ℚ :=
  (bytesAcked : ℚ) * 8 / ((durNs : ℚ) / 1000000000) / 1000000

/-- The amended C3 throughput formula actually computed by the code: the
bytes-per-second value is the truncated integer quotient
(1e9 * bytesAcked mod 2^64) / durNs, then converted to Mbps. -/
def codeThroughputMbps (bytesAcked durNs : ℕ) : ℚ :=
  (((1000000000 * bytesAcked) % 2 ^ 64 / durNs : ℕ) : ℚ) * 8 / 1000000

/-! ## The port-filter bytecode (nl_filter.c) and its kernel semantics -/

/-- A struct inet_diag_bc_op: 1-byte opcode, 1-byte yes offset, 2-byte no
field (a jump offset, or the port value on the second op of a condition).
sizeof = 4 bytes. -/
structure Op where
  code : ℕ
  yes : ℕ
  no : ℕ
deriving DecidableEq, Repr

instance : Inhabited Op := ⟨⟨0, 0, 0⟩⟩

/-- INET_DIAG_BC opcodes (linux/inet_diag.h; S_EQ/D_EQ as defined in
nl_filter.c for kernels before 4.16: MARK_COND+1 and MARK_COND+2). -/
def BC_NOP : ℕ := 0

/-- INET_DIAG_BC_JMP. -/
def BC_JMP : ℕ := 1

/-- INET_DIAG_BC_S_GE. -/
def BC_S_GE : ℕ := 2

/-- INET_DIAG_BC_S_LE. -/
def BC_S_LE : ℕ := 3

/-- INET_DIAG_BC_D_GE. -/
def BC_D_GE : ℕ := 4

/-- INET_DIAG_BC_D_LE. -/
def BC_D_LE : ℕ := 5

/-- INET_DIAG_BC_S_EQ. -/
def BC_S_EQ : ℕ := 11

/-- INET_DIAG_BC_D_EQ. -/
def BC_D_EQ : ℕ := 12

/-- The ops pfops writes for one port range (lo,hi): an equality pair when the
kernel supports the equality op and lo = hi, otherwise a GE pair followed by an
LE pair.  The second op of each pair carries the port in its no field (the
remaining fields are 0 from calloc).  `lrops` is the C expression
`last ? rops : 0`, resolved at pfops' two call sites: the op count of the
other direction added to the reject offsets of the last predicate, 0 for the
others.  The yes offsets are 2*opsz = 8 bytes. -/
def predOps (eqS dest : Bool) (lrops : ℕ) (r : ℕ × ℕ) : List Op :=
  if eqS && r.1 == r.2 then
    [⟨if dest then BC_D_EQ else BC_S_EQ, 8, (lrops + 3) * 4⟩,
     ⟨0, 0, r.1⟩]
  else
    [⟨if dest then BC_D_GE else BC_S_GE, 8, (lrops + 5) * 4⟩,
     ⟨0, 0, r.1⟩,
     ⟨if dest then BC_D_LE else BC_S_LE, 8, (lrops + 3) * 4⟩,
     ⟨0, 0, r.2⟩]

/-- pfops_count: the number of ops needed to filter the given port ranges
(3 per equality predicate, 5 per range predicate, minus the trailing jmp). -/
def pfopsCount (eqS : Bool) (rs : List (ℕ × ℕ)) : ℕ :=
  if rs.isEmpty then 0
  else (rs.map (fun r => if eqS && r.1 == r.2 then 3 else 5)).sum - 1

/-- pfops: an OR of the per-range predicates of one direction.  Between
successive predicates a JMP skips past the remainder of the direction's ops
(its no field is the byte distance from the JMP to the end of the block);
the last predicate's reject offsets additionally skip the `rops` remaining
ops of the other direction. -/
def pfops (eqS dest : Bool) (rops : ℕ) : List (ℕ × ℕ) → List Op
  | [] => []
  | [r] => predOps eqS dest rops r
  | r :: rs =>
      predOps eqS dest 0 r ++
        (⟨BC_JMP, 4, (1 + pfopsCount eqS rs) * 4⟩ : Op) :: pfops eqS dest rops rs

/-- nl_port_filter: no filter when both directions are empty; otherwise the
source-direction block (whose reject offsets skip the destination block)
followed by the destination block. -/
def nl_port_filter (eqS : Bool) (sports dports : List (ℕ × ℕ)) : Option (List Op) :=
  if sports.isEmpty && dports.isEmpty then none
  else some (pfops eqS false (pfopsCount eqS dports) sports ++ pfops eqS true 0 dports)

/-- The condition a single op tests in the kernel run loop inet_diag_bc_run:
JMP forces the no branch; port comparisons read the port from the following
op's no field; NOP and unrecognized codes leave yes = 1. -/
def opTest (sp dp port : ℕ) (code : ℕ) : Bool :=
  if code == BC_JMP then false
  else if code == BC_S_GE then port ≤ sp
  else if code == BC_S_LE then sp ≤ port
  else if code == BC_D_GE then port ≤ dp
  else if code == BC_D_LE then dp ≤ port
  else if code == BC_S_EQ then sp == port
  else if code == BC_D_EQ then dp == port
  else true

/-- The kernel interpreter inet_diag_bc_run: starting at the head, each step
evaluates the op's condition and advances by its yes or no byte offset; the
packet is accepted iff the walk lands exactly on the end of the program
(len == 0) and rejected if it jumps past the end (len < 0).  Offsets are
byte counts; on programs whose offsets are 4-byte aligned and positive —
all programs nl_port_filter emits, as proved below — this model steps op by
op exactly as the kernel does (a misaligned or zero offset is modelled as
reject). -/
def bcRun (sp dp : ℕ) : List Op → Bool
  | [] => true
  | op :: rest =>
      let port := (rest.headD default).no
      let off := if opTest sp dp port op.code then op.yes else op.no
      if off % 4 ≠ 0 ∨ off = 0 then false
      else if 4 * (1 + rest.length) < off then false
      else if off = 4 * (1 + rest.length) then true
      else bcRun sp dp (rest.drop (off / 4 - 1))
termination_by l => l.length
decreasing_by
  all_goals simp only [List.length_drop, List.length_cons]
  all_goals omega

/-- Offset well-formedness as the claim words it: a jump offset is a positive
multiple of 4 landing no further than `len` bytes ahead, i.e. never past the
end of the program. -/
def chkOffStrict (off len : ℕ) : Bool :=
  off % 4 == 0 && 4 ≤ off && off ≤ len

/-- Offset well-formedness as the kernel audit (inet_diag_bc_audit) accepts
it: a positive multiple of 4 landing at most 4 bytes (one op) past the end —
the canonical terminal reject. -/
def chkOff (off len : ℕ) : Bool :=
  off % 4 == 0 && 4 ≤ off && off ≤ len + 4

/-- The opcodes that may start an instruction in an emitted program. -/
def codeOK (c : ℕ) : Bool :=
  c == BC_JMP || c == BC_S_GE || c == BC_S_LE || c == BC_D_GE || c == BC_D_LE ||
  c == BC_S_EQ || c == BC_D_EQ

/-- Walk the program instruction by instruction (each op's yes offset skips
its trailing port op), checking `chk` on every jump offset against the
remaining length, as the kernel audit does.  `len` at an op is the byte count
from that op to the end of the program. -/
def bcCheck (chk : ℕ → ℕ → Bool) : List Op → Bool
  | [] => true
  | op :: rest =>
      let len := 4 * (1 + rest.length)
      codeOK op.code && chk op.no len && chk op.yes len &&
      decide (op.yes / 4 ≤ 1 + rest.length) &&
      bcCheck chk (rest.drop (op.yes / 4 - 1))
termination_by l => l.length
decreasing_by
  all_goals simp only [List.length_drop, List.length_cons]
  all_goals omega

/-- Whether a port matches a range (lo ≤ p ≤ hi). -/
def inRange (p : ℕ) (r : ℕ × ℕ) : Bool := r.1 ≤ p && p ≤ r.2

/-- Whether a port matches at least one of the configured ranges of a
direction. -/
def matchDir (p : ℕ) (rs : List (ℕ × ℕ)) : Bool := rs.any (inRange p)

/-! ## Concrete inputs used by witnesses and counterexamples -/

instance : Inhabited Flow :=
  ⟨⟨⟨(0, 0, 0, 0), 0, (0, 0, 0, 0), 0⟩, [], 0, 0, false, false, false, false, 0, 0⟩⟩

/-- A concrete flow ID. -/
def idA : SamplerID := ⟨(10, 0, 0, 1), 1111, (10, 0, 0, 2), 80⟩

/-- A second concrete flow ID. -/
def idB : SamplerID := ⟨(10, 0, 0, 1), 2222, (10, 0, 0, 2), 80⟩

/-- A third concrete flow ID. -/
def idC : SamplerID := ⟨(10, 0, 0, 1), 3333, (10, 0, 0, 2), 80⟩

/-- Sample data with fixed equivalence fields and a chosen timestamp and
options mask: any two `dataX` values are EquivalentTo each other. -/
def dataX (t opts : ℕ) : Data := ⟨t, opts, 10000, 9000, 14480, 125000, 0, 100⟩

/-- Sample data not equivalent to `dataX` (different rtt and cwnd). -/
def dataY (t : ℕ) : Data := ⟨t, 0, 30000, 9000, 28960, 125000, 0, 200⟩

/-- Tick 1 of the shared dedup scenario: flow idA appears with options 0 at
monotonic time 100. -/
def tick1 : Tracker × List Flow := Track (NewTracker 0 0) [⟨idA, dataX 100 0⟩] 1

/-- Tick 2: the same flow reports equal equivalence fields but options 8
(ECN) at time 200 — deduplicated. -/
def tick2 : Tracker × List Flow := Track tick1.1 [⟨idA, dataX 200 8⟩] 2

/-- Tick 3: the flow is absent, so it ends. -/
def tick3 : Tracker × List Flow := Track tick2.1 [] 3

/-- The flow emitted at tick 3. -/
def gEnded : Flow := tick3.2.headD default

/-- The tracked flow for idA after tick 2 (before it ends). -/
def fA : Flow := (findFlow tick2.1.flows idA).getD default

/-- A default analyzer configuration (100 ms interval, LinInterp quantiles,
weighted, no correlation adjustment). -/
def cfgD : AConfig := ⟨100000000, .linInterp, false, false, false, false⟩

/-- An analyzer configuration with the second adjusted-correlation mode. -/
def cfgCC2 : AConfig := ⟨100000000, .linInterp, false, false, false, true⟩

/-- A one-sample (already ended) flow. -/
def oneSampleFlow : Flow := ⟨idA, [dataX 100 0], 1, 2, false, false, false, false, 0, 100⟩

/-- A two-sample ended flow whose cwnd is constant but whose other series
vary. -/
def constCwndFlow : Flow :=
  ⟨idA, [⟨100, 0, 10000, 9000, 14480, 125000, 0, 100⟩,
         ⟨100000100, 0, 30000, 9000, 14480, 250000, 2, 200⟩],
   1, 2, false, false, false, false, 0, 100000100⟩

/-- A two-sample ended flow (varying cwnd), used for the AdjustedCC2 bug. -/
def twoSampleFlow : Flow :=
  ⟨idA, [⟨100, 0, 10000, 9000, 14480, 125000, 0, 100⟩,
         ⟨100000100, 0, 30000, 9000, 28960, 250000, 2, 200⟩],
   1, 2, false, false, false, false, 0, 100000100⟩

/-- A one-sample flow that acked 1 byte over a 3-second wall-clock lifetime:
the truncated integer bytes-per-second value is 0. -/
def slowFlow : Flow :=
  ⟨idA, [⟨100, 0, 10000, 9000, 14480, 125000, 0, 1⟩],
   0, 3000000000, false, false, false, false, 0, 100⟩

/-- maxFlows = 2 and three flows introduced simultaneously: the third is
filtered. -/
def tick1C : Tracker × List Flow :=
  Track (NewTracker 2 0) [⟨idA, dataX 100 0⟩, ⟨idB, dataY 100⟩, ⟨idC, dataY 100⟩] 1

/-- The tracked flow for an ID (the Go map entry), defaulted. -/
def flowAt (t : Tracker) (id : SamplerID) : Flow := (findFlow t.flows id).getD default

/-- Tick 2 of the admission scenario: all three flows sampled again. -/
def tick2C : Tracker × List Flow :=
  Track tick1C.1 [⟨idA, dataX 200 0⟩, ⟨idB, dataY 200⟩, ⟨idC, dataY 200⟩] 2

/-- Alternative tick 2 of the admission scenario: all three flows end. -/
def tick2C0 : Tracker × List Flow := Track tick1C.1 [] 2

/-! # Theorems -/

/-! ## Data equivalence -/

/-- EquivalentTo is equality on the six equivalence fields. -/
theorem equivalentTo_iff (d d1 : Data) :
    d.EquivalentTo d1 = true ↔
      (d.rttUs = d1.rttUs ∧ d.bytesAcked = d1.bytesAcked ∧
       d.pacingRateBps = d1.pacingRateBps ∧ d.totalRetransmits = d1.totalRetransmits ∧
       d.sndCwndBytes = d1.sndCwndBytes ∧ d.minRttUs = d1.minRttUs) := by
  simp [Data.EquivalentTo, and_assoc]

/-- EquivalentTo is transitive. -/
theorem equivalentTo_trans {a b c : Data} (h1 : a.EquivalentTo b = true)
    (h2 : b.EquivalentTo c = true) : a.EquivalentTo c = true := by
  rw [equivalentTo_iff] at h1 h2 ⊢
  omega

/-! ## Tracker update lemmas -/

/-- updateExisting does not change the flow's ID. -/
theorem updateExisting_id (s : Sample) (f : Flow) : (updateExisting s f).id = f.id := by
  unfold updateExisting
  split
  · rfl
  · dsimp only
    split <;> rfl

/-- updateExisting does not change the filtered flag. -/
theorem updateExisting_filtered (s : Sample) (f : Flow) :
    (updateExisting s f).filtered = f.filtered := by
  unfold updateExisting
  split
  · rfl
  · dsimp only
    split <;> rfl

/-- updateExisting leaves the data alone or appends the sample. -/
theorem updateExisting_data_cases (s : Sample) (f : Flow) :
    (updateExisting s f).data = f.data ∨ (updateExisting s f).data = f.data ++ [s.data] := by
  unfold updateExisting
  split
  · exact Or.inl rfl
  · dsimp only
    split
    · exact Or.inl rfl
    · exact Or.inr rfl

/-- The filtered branch of updateExisting. -/
theorem updateExisting_of_filtered (s : Sample) (f : Flow) (hf : f.filtered = true) :
    updateExisting s f = { f with sampled := true } := by
  unfold updateExisting
  rw [if_pos hf]

/-- The dedup branch of updateExisting. -/
theorem updateExisting_dedup (s : Sample) (f : Flow) (hnf : f.filtered = false)
    (heq : (f.data.getLastD defaultData).EquivalentTo s.data = true) :
    updateExisting s f =
      { f with sampled := true, endTstampNs := s.data.tstampNs,
               samplesDeduped := f.samplesDeduped + 1 } := by
  unfold updateExisting
  rw [if_neg (by simp [hnf])]
  dsimp only
  rw [if_pos heq]

/-- The append branch of updateExisting. -/
theorem updateExisting_append (s : Sample) (f : Flow) (hnf : f.filtered = false)
    (hne : (f.data.getLastD defaultData).EquivalentTo s.data = false) :
    updateExisting s f =
      { f with sampled := true, endTstampNs := s.data.tstampNs,
               data := f.data ++ [s.data] } := by
  unfold updateExisting
  rw [if_neg (by simp [hnf])]
  dsimp only
  rw [if_neg (by rw [hne]; exact Bool.false_ne_true)]

/-! ## findFlow lemmas -/

/-- findFlow on a cons whose head has the ID. -/
theorem findFlow_cons_pos {f : Flow} {id : SamplerID} (fs : List Flow)
    (h : (f.id == id) = true) : findFlow (f :: fs) id = some f := by
  unfold findFlow
  exact List.find?_cons_of_pos _ h

/-- findFlow on a cons whose head misses the ID. -/
theorem findFlow_cons_neg {f : Flow} {id : SamplerID} (fs : List Flow)
    (h : (f.id == id) = false) : findFlow (f :: fs) id = findFlow fs id := by
  unfold findFlow
  exact List.find?_cons_of_neg _ (by rw [h]; exact Bool.false_ne_true)

/-- findFlow through a map by an ID-preserving function. -/
theorem findFlow_map (fs : List Flow) (id : SamplerID) (g : Flow → Flow)
    (hg : ∀ f, (g f).id = f.id) :
    findFlow (fs.map g) id = (findFlow fs id).map g := by
  induction fs with
  | nil => rfl
  | cons f fs ih =>
      cases h : (f.id == id) with
      | false =>
          have h2 : ((g f).id == id) = false := by rw [hg f]; exact h
          rw [List.map_cons, findFlow_cons_neg _ h2, findFlow_cons_neg _ h, ih]
      | true =>
          have h2 : ((g f).id == id) = true := by rw [hg f]; exact h
          rw [List.map_cons, findFlow_cons_pos _ h2, findFlow_cons_pos _ h]
          rfl

/-- findFlow over an append when the left part already has the ID. -/
theorem findFlow_append_some {fs : List Flow} {id : SamplerID} {f : Flow}
    (gs : List Flow) (h : findFlow fs id = some f) :
    findFlow (fs ++ gs) id = some f := by
  induction fs with
  | nil => simp [findFlow] at h
  | cons a fs ih =>
      cases ha : (a.id == id) with
      | false =>
          rw [findFlow_cons_neg _ ha] at h
          rw [List.cons_append, findFlow_cons_neg _ ha]
          exact ih h
      | true =>
          rw [findFlow_cons_pos _ ha] at h
          rw [List.cons_append, findFlow_cons_pos _ ha]
          exact h

/-- findFlow over an append when the left part misses the ID. -/
theorem findFlow_append_none {fs : List Flow} {id : SamplerID}
    (gs : List Flow) (h : findFlow fs id = none) :
    findFlow (fs ++ gs) id = findFlow gs id := by
  induction fs with
  | nil => rfl
  | cons a fs ih =>
      cases ha : (a.id == id) with
      | false =>
          rw [findFlow_cons_neg _ ha] at h
          rw [List.cons_append, findFlow_cons_neg _ ha]
          exact ih h
      | true =>
          rw [findFlow_cons_pos _ ha] at h
          exact absurd h (by simp)

/-- The membership the find? result satisfies. -/
theorem findFlow_some_id {fs : List Flow} {id : SamplerID} {f : Flow}
    (h : findFlow fs id = some f) : f.id = id ∧ f ∈ fs := by
  have h1 := List.find?_some h
  have h2 := List.mem_of_find?_eq_some h
  simp at h1
  exact ⟨h1, h2⟩

/-- Updating with a sample of an existing ID rewrites that ID's entry by
updateExisting. -/
theorem findFlow_updateOne_same (t : Tracker) (s : Sample) (now : ℕ) (f : Flow)
    (h : findFlow t.flows s.id = some f) :
    findFlow (updateOne now t s).flows s.id = some (updateExisting s f) := by
  unfold updateOne
  rw [h]
  dsimp only
  rw [findFlow_map _ _ _ (fun g => by split <;> simp [updateExisting_id]), h]
  have hid : (f.id == s.id) = true := by simp [(findFlow_some_id h).1]
  simp only [Option.map_some']
  rw [if_pos hid]

/-- Updating with a sample of a different ID leaves an ID's entry unchanged. -/
theorem findFlow_updateOne_other (t : Tracker) (s : Sample) (now : ℕ) (id : SamplerID)
    (hid : id ≠ s.id) :
    findFlow (updateOne now t s).flows id = findFlow t.flows id := by
  have hsid : ((newFlow t s now).id == id) = false := by
    have : (newFlow t s now).id = s.id := rfl
    rw [this]
    exact beq_eq_false_iff_ne.mpr (fun hc => hid hc.symm)
  unfold updateOne
  cases h : findFlow t.flows s.id with
  | none =>
      dsimp only
      cases h2 : findFlow t.flows id with
      | none =>
          rw [findFlow_append_none _ h2, findFlow_cons_neg _ hsid]
          rfl
      | some f => exact findFlow_append_some _ h2
  | some f =>
      dsimp only
      rw [findFlow_map _ _ _ (fun g => by split <;> simp [updateExisting_id])]
      cases h2 : findFlow t.flows id with
      | none => rfl
      | some g =>
          have hgid : g.id = id := (findFlow_some_id h2).1
          have hg : (g.id == s.id) = false := by
            rw [hgid]
            exact beq_eq_false_iff_ne.mpr hid
          simp only [Option.map_some']
          rw [if_neg (by rw [hg]; exact Bool.false_ne_true)]

/-- C8: for a non-filtered tracked flow, feeding a sample and then a second
sample equal to it on the six equivalence fields leaves the flow's data
unchanged relative to the state after the first feed, increases
samplesDeduped by exactly one, and moves endTstampNs to the second sample's
timestamp. -/
theorem claim8_idempotent_dedup (t : Tracker) (s1 s2 : Sample) (now1 now2 : ℕ) (f : Flow)
    (h : findFlow t.flows s1.id = some f) (hnf : f.filtered = false)
    (hid : s2.id = s1.id) (heq : s1.data.EquivalentTo s2.data = true) :
    (flowAt (updateOne now2 (updateOne now1 t s1) s2) s1.id).data =
        (flowAt (updateOne now1 t s1) s1.id).data ∧
    (flowAt (updateOne now2 (updateOne now1 t s1) s2) s1.id).samplesDeduped =
        (flowAt (updateOne now1 t s1) s1.id).samplesDeduped + 1 ∧
    (flowAt (updateOne now2 (updateOne now1 t s1) s2) s1.id).endTstampNs =
        s2.data.tstampNs := by
  have h1 : findFlow (updateOne now1 t s1).flows s1.id = some (updateExisting s1 f) :=
    findFlow_updateOne_same t s1 now1 f h
  have h1' : findFlow (updateOne now1 t s1).flows s2.id = some (updateExisting s1 f) := by
    rw [hid]; exact h1
  have h2 : findFlow (updateOne now2 (updateOne now1 t s1) s2).flows s2.id =
      some (updateExisting s2 (updateExisting s1 f)) :=
    findFlow_updateOne_same _ s2 now2 _ h1'
  have h2' : findFlow (updateOne now2 (updateOne now1 t s1) s2).flows s1.id =
      some (updateExisting s2 (updateExisting s1 f)) := by
    rw [← hid]; exact h2
  have hf1 : (updateExisting s1 f).filtered = false := by
    rw [updateExisting_filtered]; exact hnf
  have hlast : ((updateExisting s1 f).data.getLastD defaultData).EquivalentTo s2.data = true := by
    cases hd : (f.data.getLastD defaultData).EquivalentTo s1.data with
    | true =>
        rw [updateExisting_dedup s1 f hnf hd]
        exact equivalentTo_trans hd heq
    | false =>
        rw [updateExisting_append s1 f hnf hd]
        dsimp only
        rw [List.getLastD_concat]
        exact heq
  unfold flowAt
  rw [h1, h2', updateExisting_dedup s2 _ hf1 hlast]
  exact ⟨rfl, rfl, rfl⟩

/-! ## Invariant preservation -/

/-- updateOne does not change the tracker configuration. -/
theorem updateOne_minSamples (t : Tracker) (s : Sample) (now : ℕ) :
    (updateOne now t s).minSamples = t.minSamples := by
  unfold updateOne
  cases findFlow t.flows s.id <;> rfl

/-- updateOne does not change maxFlows. -/
theorem updateOne_maxFlows (t : Tracker) (s : Sample) (now : ℕ) :
    (updateOne now t s).maxFlows = t.maxFlows := by
  unfold updateOne
  cases findFlow t.flows s.id <;> rfl

/-- update does not change minSamples. -/
theorem update_minSamples (ss : List Sample) (t : Tracker) (now : ℕ) :
    (update t ss now).minSamples = t.minSamples := by
  induction ss generalizing t with
  | nil => rfl
  | cons s ss ih =>
      show (update (updateOne now t s) ss now).minSamples = t.minSamples
      rw [ih, updateOne_minSamples]

/-- update does not change maxFlows. -/
theorem update_maxFlows (ss : List Sample) (t : Tracker) (now : ℕ) :
    (update t ss now).maxFlows = t.maxFlows := by
  induction ss generalizing t with
  | nil => rfl
  | cons s ss ih =>
      show (update (updateOne now t s) ss now).maxFlows = t.maxFlows
      rw [ih, updateOne_maxFlows]

/-- Mapping an ID-preserving function leaves the ID list unchanged. -/
theorem map_ids_pres (fs : List Flow) (g : Flow → Flow) (hg : ∀ f, (g f).id = f.id) :
    (fs.map g).map (fun f => f.id) = fs.map (fun f => f.id) := by
  induction fs with
  | nil => rfl
  | cons f fs ih => simp [hg f, ih]

/-- The data of newFlow is empty exactly when it is filtered. -/
theorem newFlow_data_eq (t : Tracker) (s : Sample) (now : ℕ) :
    (newFlow t s now).data = if (newFlow t s now).filtered then [] else [s.data] := rfl

/-- updateOne preserves the table invariant. -/
theorem wf_updateOne (t : Tracker) (s : Sample) (now : ℕ) (h : WF t) :
    WF (updateOne now t s) := by
  obtain ⟨hnd, hdata⟩ := h
  unfold updateOne
  cases hf : findFlow t.flows s.id with
  | none =>
      constructor
      · dsimp only
        rw [List.map_append]
        refine List.Nodup.append hnd (List.nodup_singleton _) ?_
        intro a ha hb
        simp only [List.map_cons, List.map_nil, List.mem_singleton] at hb
        obtain ⟨f0, hf0, hfid⟩ := List.mem_map.mp ha
        have : f0.id ≠ s.id := by
          have := List.find?_eq_none.mp hf f0 hf0
          simpa using this
        exact this (by rw [hfid, hb]; rfl)
      · intro f hf' hfil
        dsimp only at hf'
        rcases List.mem_append.mp hf' with hmem | hmem
        · exact hdata f hmem hfil
        · have hfeq : f = newFlow t s now := by simpa using hmem
          subst hfeq
          rw [newFlow_data_eq, hfil]
          simp
  | some f0 =>
      constructor
      · dsimp only
        rw [map_ids_pres _ _ (fun g => by split <;> simp [updateExisting_id])]
        exact hnd
      · intro f hf' hfil
        dsimp only at hf'
        obtain ⟨g, hg, hfeq⟩ := List.mem_map.mp hf'
        subst hfeq
        cases hc : (g.id == s.id) with
        | true =>
            rw [hc] at hfil
            have hred : (if true = true then updateExisting s g else g) = updateExisting s g := by
              simp
            rw [hred] at hfil ⊢
            have hgf : g.filtered = false := by
              rw [← updateExisting_filtered s g]; exact hfil
            rcases updateExisting_data_cases s g with hd | hd
            · rw [hd]; exact hdata g hg hgf
            · rw [hd]; simp
        | false =>
            rw [hc] at hfil
            have hred : (if false = true then updateExisting s g else g) = g := by simp
            rw [hred] at hfil ⊢
            exact hdata g hg hfil

/-- update preserves the table invariant. -/
theorem wf_update (ss : List Sample) (t : Tracker) (now : ℕ) (h : WF t) :
    WF (update t ss now) := by
  induction ss generalizing t with
  | nil => exact h
  | cons s ss ih =>
      show WF (update (updateOne now t s) ss now)
      exact ih _ (wf_updateOne t s now h)

/-- cleanup preserves the table invariant. -/
theorem wf_cleanup (t : Tracker) (now : ℕ) (h : WF t) : WF (cleanup t now).1 := by
  obtain ⟨hnd, hdata⟩ := h
  constructor
  · dsimp only [cleanup]
    rw [map_ids_pres (t.flows.filter (fun f => f.sampled))
      (fun f => { f with sampled := false }) (fun f => rfl)]
    have hsub : List.Sublist (t.flows.filter (fun f => f.sampled)) t.flows :=
      List.filter_sublist _
    exact hnd.sublist (hsub.map _)
  · intro f hf hfil
    dsimp only [cleanup] at hf
    obtain ⟨g, hg, hfeq⟩ := List.mem_map.mp hf
    subst hfeq
    have hgmem : g ∈ t.flows := List.mem_of_mem_filter hg
    exact hdata g hgmem hfil

/-- Track preserves the table invariant. -/
theorem wf_Track (t : Tracker) (ss : List Sample) (now : ℕ) (h : WF t) :
    WF (Track t ss now).1 := by
  have h1 := wf_update ss t now h
  have h2 := wf_cleanup (update t ss now) now h1
  exact h2

/-- A nonempty list has head? and getLast? defined. -/
theorem head_getLast_isSome {l : List Data} (h : l ≠ []) :
    l.head?.isSome = true ∧ l.getLast?.isSome = true := by
  cases l with
  | nil => exact absurd rfl h
  | cons a l =>
      refine ⟨rfl, ?_⟩
      rw [List.getLast?_isSome]
      simp

/-- What keepEnded gives for a member of the output. -/
theorem keepEnded_spec {t : Tracker} {f : Flow} (h : keepEnded t f = true) :
    f.filtered = false ∧ (0 < t.minSamples → t.minSamples ≤ f.data.length) := by
  unfold keepEnded at h
  simp only [Bool.and_eq_true, Bool.not_eq_true'] at h
  constructor
  · exact h.1
  · intro hmin
    rcases Bool.and_eq_false_iff.mp h.2 with hc | hc
    · simp at hc; omega
    · simp at hc; omega

/-- C9: every flow returned by Tracker.Track is non-filtered with non-empty
data (of length at least minSamples when minSamples > 0), so the analyzer's
accesses to Data[0] and Data[len-1] are in bounds for analyzed flows. -/
theorem claim9_ended_safety (t : Tracker) (ss : List Sample) (now : ℕ) (h : WF t) :
    ∀ g ∈ (Track t ss now).2,
      g.filtered = false ∧ g.data ≠ [] ∧ 1 ≤ g.data.length ∧
      (0 < t.minSamples → t.minSamples ≤ g.data.length) ∧
      g.data.head?.isSome = true ∧ g.data.getLast?.isSome = true := by
  intro g hg
  have h1 := wf_update ss t now h
  have hg' : g ∈ ((update t ss now).flows.filter (fun f => !f.sampled)).map (endFlow now) ∧
      keepEnded (update t ss now) g = true := List.mem_filter.mp hg
  obtain ⟨f0, hf0, hfeq⟩ := List.mem_map.mp hg'.1
  have hkeep := keepEnded_spec hg'.2
  have hfil : g.filtered = false := hkeep.1
  have hf0mem : f0 ∈ (update t ss now).flows := List.mem_of_mem_filter hf0
  have hdata : g.data = f0.data := by rw [← hfeq]; rfl
  have hf0fil : f0.filtered = false := by
    have : g.filtered = f0.filtered := by rw [← hfeq]; rfl
    rw [← this]; exact hfil
  have hne : g.data ≠ [] := by
    rw [hdata]
    exact h1.2 f0 hf0mem hf0fil
  have hlen : 1 ≤ g.data.length := by
    cases hl : g.data with
    | nil => exact absurd hl hne
    | cons a l => simp
  have hmin : 0 < t.minSamples → t.minSamples ≤ g.data.length := by
    intro hp
    have := hkeep.2
    rw [update_minSamples] at this
    exact this hp
  have hsome := head_getLast_isSome hne
  exact ⟨hfil, hne, hlen, hmin, hsome.1, hsome.2⟩

/-! ## Admission (maxFlows) lemmas -/

/-- countNF is bounded by the table length. -/
theorem countNF_le_length (fs : List Flow) : countNF fs ≤ fs.length :=
  List.length_filter_le _ _

/-- countNF over an append. -/
theorem countNF_append (fs gs : List Flow) :
    countNF (fs ++ gs) = countNF fs + countNF gs := by
  simp [countNF, List.filter_append]

/-- countNF through a map by a filtered-preserving function. -/
theorem countNF_map_pres (fs : List Flow) (g : Flow → Flow)
    (hg : ∀ f, (g f).filtered = f.filtered) :
    countNF (fs.map g) = countNF fs := by
  induction fs with
  | nil => rfl
  | cons f fs ih =>
      cases hb : f.filtered with
      | true => simp [countNF, List.filter_cons, hg f, hb] at ih ⊢; exact ih
      | false => simp [countNF, List.filter_cons, hg f, hb] at ih ⊢; exact ih

/-- countNF never increases under a filter. -/
theorem countNF_filter_le (p : Flow → Bool) (fs : List Flow) :
    countNF (fs.filter p) ≤ countNF fs := by
  unfold countNF
  exact ((List.filter_sublist fs).filter _).length_le

/-- One update step keeps the count of non-filtered flows within maxFlows. -/
theorem countNF_updateOne (t : Tracker) (s : Sample) (now : ℕ)
    (hk : t.maxFlows ≠ 0) (h : countNF t.flows ≤ t.maxFlows) :
    countNF (updateOne now t s).flows ≤ t.maxFlows := by
  unfold updateOne
  cases hf : findFlow t.flows s.id with
  | some f =>
      dsimp only
      rw [countNF_map_pres _ _ (fun g => by split <;> simp [updateExisting_filtered])]
      exact h
  | none =>
      dsimp only
      rw [countNF_append]
      cases hb : (newFlow t s now).filtered with
      | true =>
          have h1 : countNF [newFlow t s now] = 0 := by simp [countNF, hb]
          rw [h1]
          omega
      | false =>
          have h1 : countNF [newFlow t s now] = 1 := by simp [countNF, hb]
          rw [h1]
          have hb' : (decide (0 < t.maxFlows) && decide (t.maxFlows < t.flows.length + 1))
              = false := hb
          have hlen := countNF_le_length t.flows
          rcases Bool.and_eq_false_iff.mp hb' with hc | hc
          · simp at hc; omega
          · simp at hc; omega

/-- The update phase keeps the count of non-filtered flows within maxFlows. -/
theorem countNF_update (ss : List Sample) (t : Tracker) (now : ℕ)
    (hk : t.maxFlows ≠ 0) (h : countNF t.flows ≤ t.maxFlows) :
    countNF (update t ss now).flows ≤ t.maxFlows := by
  induction ss generalizing t with
  | nil => exact h
  | cons s ss ih =>
      show countNF (update (updateOne now t s) ss now).flows ≤ t.maxFlows
      have e := updateOne_maxFlows t s now
      have h2 := ih (updateOne now t s) (by rw [e]; exact hk)
        (by rw [e]; exact countNF_updateOne t s now hk h)
      rw [e] at h2
      exact h2

/-- The cleanup phase never increases the count of non-filtered flows. -/
theorem countNF_cleanup (t : Tracker) (now : ℕ) :
    countNF (cleanup t now).1.flows ≤ countNF t.flows := by
  dsimp only [cleanup]
  rw [countNF_map_pres (t.flows.filter (fun f => f.sampled))
    (fun f => { f with sampled := false }) (fun f => rfl)]
  exact countNF_filter_le _ _

/-- Track does not change maxFlows. -/
theorem Track_maxFlows (t : Tracker) (ss : List Sample) (now : ℕ) :
    (Track t ss now).1.maxFlows = t.maxFlows := by
  show (update t ss now).maxFlows = t.maxFlows
  exact update_maxFlows ss t now

/-- One tick keeps the count of non-filtered flows within maxFlows. -/
theorem countNF_Track (t : Tracker) (ss : List Sample) (now : ℕ)
    (hk : t.maxFlows ≠ 0) (h : countNF t.flows ≤ t.maxFlows) :
    countNF (Track t ss now).1.flows ≤ t.maxFlows := by
  have h1 := countNF_update ss t now hk h
  have h2 := countNF_cleanup (update t ss now) now
  exact le_trans h2 h1

/-- With Nodup IDs, any member with a given ID is the find? result. -/
theorem findFlow_eq_of_mem {fs : List Flow} {f : Flow} {id : SamplerID}
    (hnd : (fs.map (fun f => f.id)).Nodup) (hmem : f ∈ fs) (hid : f.id = id) :
    findFlow fs id = some f := by
  induction fs with
  | nil => exact absurd hmem (List.not_mem_nil f)
  | cons a fs ih =>
      rcases List.mem_cons.mp hmem with heq | hmem'
      · subst heq
        exact findFlow_cons_pos _ (by simp [hid])
      · have hnd' := List.nodup_cons.mp hnd
        have hane : (a.id == id) = false := by
          have : f.id ∈ fs.map (fun f => f.id) := List.mem_map_of_mem _ hmem'
          rw [hid] at this
          refine beq_eq_false_iff_ne.mpr (fun hc => hnd'.1 ?_)
          show a.id ∈ List.map (fun f => f.id) fs
          rw [hc]
          exact this
        rw [findFlow_cons_neg _ hane]
        exact ih hnd'.2 hmem'

/-- An existing flow's entry after updateOne is updateExisting of it or
itself. -/
theorem mem_updateOne_of_mem (t : Tracker) (s : Sample) (now : ℕ) (f : Flow)
    (hmem : f ∈ t.flows) :
    f ∈ (updateOne now t s).flows ∨ updateExisting s f ∈ (updateOne now t s).flows := by
  unfold updateOne
  cases hf : findFlow t.flows s.id with
  | none =>
      left
      dsimp only
      exact List.mem_append_left _ hmem
  | some f0 =>
      dsimp only
      cases hc : (f.id == s.id) with
      | true =>
          right
          have : (if (f.id == s.id) = true then updateExisting s f else f)
              ∈ t.flows.map (fun f => if (f.id == s.id) = true then updateExisting s f else f) :=
            List.mem_map_of_mem _ hmem
          rw [hc, if_pos rfl] at this
          exact this
      | false =>
          left
          have : (if (f.id == s.id) = true then updateExisting s f else f)
              ∈ t.flows.map (fun f => if (f.id == s.id) = true then updateExisting s f else f) :=
            List.mem_map_of_mem _ hmem
          rw [hc] at this
          rw [if_neg Bool.false_ne_true] at this
          exact this

/-- One update step preserves "some flow with this ID is present and every
flow with this ID is filtered" (the update loop never clears the filtered
flag, and it cannot insert a fresh flow for an ID that is present). -/
theorem filtered_persist_updateOne (t : Tracker) (s : Sample) (now : ℕ) (id : SamplerID)
    (hex : ∃ f0 ∈ t.flows, f0.id = id)
    (h : ∀ f ∈ t.flows, f.id = id → f.filtered = true) :
    (∃ f0 ∈ (updateOne now t s).flows, f0.id = id) ∧
    (∀ f ∈ (updateOne now t s).flows, f.id = id → f.filtered = true) := by
  obtain ⟨f0, hf0, hf0id⟩ := hex
  constructor
  · rcases mem_updateOne_of_mem t s now f0 hf0 with hm | hm
    · exact ⟨f0, hm, hf0id⟩
    · exact ⟨updateExisting s f0, hm, by rw [updateExisting_id]; exact hf0id⟩
  · intro f hmem hfid
    unfold updateOne at hmem
    cases hf : findFlow t.flows s.id with
    | none =>
        rw [hf] at hmem
        dsimp only at hmem
        rcases List.mem_append.mp hmem with hm | hm
        · exact h f hm hfid
        · have hfeq : f = newFlow t s now := by simpa using hm
          have hsid : f.id = s.id := by rw [hfeq]; rfl
          have : (f0.id == s.id) = true := by
            rw [hf0id, ← hfid, hsid]
            simp
          exact absurd (List.find?_eq_none.mp hf f0 hf0) (by simp [this])
    | some fx =>
        rw [hf] at hmem
        dsimp only at hmem
        obtain ⟨g, hg, hfeq⟩ := List.mem_map.mp hmem
        subst hfeq
        cases hc : (g.id == s.id) with
        | true =>
            rw [hc] at hfid
            have hred : (if true = true then updateExisting s g else g) = updateExisting s g := by
              simp
            rw [hred] at hfid ⊢
            rw [updateExisting_filtered]
            rw [updateExisting_id] at hfid
            exact h g hg hfid
        | false =>
            rw [hc] at hfid
            have hred : (if false = true then updateExisting s g else g) = g := by simp
            rw [hred] at hfid ⊢
            exact h g hg hfid

/-- The whole update phase preserves the filtered-persistence invariant. -/
theorem filtered_persist_update (ss : List Sample) (t : Tracker) (now : ℕ) (id : SamplerID)
    (hex : ∃ f0 ∈ t.flows, f0.id = id)
    (h : ∀ f ∈ t.flows, f.id = id → f.filtered = true) :
    (∃ f0 ∈ (update t ss now).flows, f0.id = id) ∧
    (∀ f ∈ (update t ss now).flows, f.id = id → f.filtered = true) := by
  induction ss generalizing t with
  | nil => exact ⟨hex, h⟩
  | cons s ss ih =>
      have h1 := filtered_persist_updateOne t s now id hex h
      exact ih (updateOne now t s) h1.1 h1.2

/-- The count invariant over a whole run. -/
theorem countNF_TrackRun (ticks : List (List Sample × ℕ)) (t : Tracker)
    (hk : t.maxFlows ≠ 0) (h : countNF t.flows ≤ t.maxFlows) :
    countNF (TrackRun t ticks).1.flows ≤ t.maxFlows := by
  induction ticks generalizing t with
  | nil => exact h
  | cons tick ticks ih =>
      obtain ⟨ss, now⟩ := tick
      show countNF (TrackRun (Track t ss now).1 ticks).1.flows ≤ t.maxFlows
      have e := Track_maxFlows t ss now
      have h2 := ih (Track t ss now).1 (by rw [e]; exact hk)
        (by rw [e]; exact countNF_Track t ss now hk h)
      rw [e] at h2
      exact h2

/-- C6: with maxFlows = k > 0, at most k flows are ever non-filtered in the
table (per tick and over any run from a fresh tracker), and a flow marked
filtered stays filtered across a tick and never appears in the tick's
output. -/
theorem claim6_admission :
    (∀ (t : Tracker) (ss : List Sample) (now : ℕ),
        t.maxFlows ≠ 0 → countNF t.flows ≤ t.maxFlows →
        countNF (Track t ss now).1.flows ≤ t.maxFlows) ∧
    (∀ (k minS : ℕ) (ticks : List (List Sample × ℕ)), k ≠ 0 →
        countNF (TrackRun (NewTracker k minS) ticks).1.flows ≤ k) ∧
    (∀ (t : Tracker) (ss : List Sample) (now : ℕ) (id : SamplerID) (f : Flow),
        WF t → findFlow t.flows id = some f → f.filtered = true →
        (∀ g ∈ (Track t ss now).2, g.id ≠ id) ∧
        (∀ f' ∈ (Track t ss now).1.flows, f'.id = id → f'.filtered = true)) := by
  refine ⟨fun t ss now hk h => countNF_Track t ss now hk h,
          fun k minS ticks hk => countNF_TrackRun ticks (NewTracker k minS) hk
            (by simp [countNF, NewTracker]),
          fun t ss now id f hWF hfind hfil => ?_⟩
  have hmem := findFlow_some_id hfind
  have hex : ∃ f0 ∈ t.flows, f0.id = id := ⟨f, hmem.2, hmem.1⟩
  have hall : ∀ f' ∈ t.flows, f'.id = id → f'.filtered = true := by
    intro f' hf' hf'id
    have : findFlow t.flows id = some f' := findFlow_eq_of_mem hWF.1 hf' hf'id
    rw [hfind] at this
    injection this with hinj
    rw [← hinj]
    exact hfil
  have hpers := filtered_persist_update ss t now id hex hall
  constructor
  · intro g hg hgid
    have hg' := List.mem_filter.mp hg
    obtain ⟨f0, hf0, hfeq⟩ := List.mem_map.mp hg'.1
    subst hfeq
    have hf0mem : f0 ∈ (update t ss now).flows := List.mem_of_mem_filter hf0
    have hf0id : f0.id = id := hgid
    have hf0fil : f0.filtered = true := hpers.2 f0 hf0mem hf0id
    have hcontra : f0.filtered = false := (keepEnded_spec hg'.2).1
    rw [hf0fil] at hcontra
    exact Bool.noConfusion hcontra
  · intro f' hf' hf'id
    obtain ⟨f0, hf0, hfeq⟩ := List.mem_map.mp hf'
    subst hfeq
    have hf0mem : f0 ∈ (update t ss now).flows := List.mem_of_mem_filter hf0
    show f0.filtered = true
    exact hpers.2 f0 hf0mem hf'id

/-- Witness for C6 on the three-flows/maxFlows=2 scenario. -/
theorem claim6_witness :
    countNF (Track tick1C.1 [⟨idA, dataX 200 0⟩, ⟨idB, dataY 200⟩, ⟨idC, dataY 200⟩]
        2).1.flows ≤ tick1C.1.maxFlows ∧
    countNF (TrackRun (NewTracker 2 0)
        [([⟨idA, dataX 100 0⟩, ⟨idB, dataY 100⟩, ⟨idC, dataY 100⟩], 1), ([], 2)]).1.flows ≤ 2 ∧
    ((Track tick1C.1 [] 2).2.getD 0 default).id ≠ idC ∧
    ((Track tick1C.1 [] 2).2.getD 1 default).id ≠ idC ∧
    (flowAt (Track tick1C.1 [⟨idA, dataX 200 0⟩, ⟨idB, dataY 200⟩, ⟨idC, dataY 200⟩] 2).1
        idC).filtered = true := by
  refine ⟨claim6_admission.1 tick1C.1
            [⟨idA, dataX 200 0⟩, ⟨idB, dataY 200⟩, ⟨idC, dataY 200⟩] 2 (by decide) (by decide),
          claim6_admission.2.1 2 0
            [([⟨idA, dataX 100 0⟩, ⟨idB, dataY 100⟩, ⟨idC, dataY 100⟩], 1), ([], 2)] (by decide),
          (claim6_admission.2.2 tick1C.1 [] 2 idC (flowAt tick1C.1 idC) (by decide) (by decide)
            (by decide)).1 ((Track tick1C.1 [] 2).2.getD 0 default) (by decide),
          (claim6_admission.2.2 tick1C.1 [] 2 idC (flowAt tick1C.1 idC) (by decide) (by decide)
            (by decide)).1 ((Track tick1C.1 [] 2).2.getD 1 default) (by decide),
          (claim6_admission.2.2 tick1C.1
            [⟨idA, dataX 200 0⟩, ⟨idB, dataY 200⟩, ⟨idC, dataY 200⟩] 2 idC
            (flowAt tick1C.1 idC) (by decide) (by decide) (by decide)).2
            (flowAt (Track tick1C.1
              [⟨idA, dataX 200 0⟩, ⟨idB, dataY 200⟩, ⟨idC, dataY 200⟩] 2).1 idC)
            (by decide) (by decide)⟩

/-- Witness for C9 at a concrete tracker (the flow from tick 1 ends at a
tick without samples). -/
theorem claim9_witness :
    ((Track tick1.1 [] 2).2.headD default).filtered = false ∧
    ((Track tick1.1 [] 2).2.headD default).data ≠ [] ∧
    1 ≤ ((Track tick1.1 [] 2).2.headD default).data.length ∧
    (0 < tick1.1.minSamples → tick1.1.minSamples ≤
      ((Track tick1.1 [] 2).2.headD default).data.length) ∧
    ((Track tick1.1 [] 2).2.headD default).data.head?.isSome = true ∧
    ((Track tick1.1 [] 2).2.headD default).data.getLast?.isSome = true :=
  claim9_ended_safety tick1.1 [] 2 (by decide) ((Track tick1.1 [] 2).2.headD default)
    (by decide)

/-- Witness for C8 at a concrete tracker and samples. -/
theorem claim8_witness :
    (flowAt (updateOne 3 (updateOne 2 tick1.1 ⟨idA, dataX 300 0⟩) ⟨idA, dataX 400 4⟩) idA).data =
        (flowAt (updateOne 2 tick1.1 ⟨idA, dataX 300 0⟩) idA).data ∧
    (flowAt (updateOne 3 (updateOne 2 tick1.1 ⟨idA, dataX 300 0⟩) ⟨idA, dataX 400 4⟩)
        idA).samplesDeduped =
        (flowAt (updateOne 2 tick1.1 ⟨idA, dataX 300 0⟩) idA).samplesDeduped + 1 ∧
    (flowAt (updateOne 3 (updateOne 2 tick1.1 ⟨idA, dataX 300 0⟩) ⟨idA, dataX 400 4⟩)
        idA).endTstampNs = 400 :=
  claim8_idempotent_dedup tick1.1 ⟨idA, dataX 300 0⟩ ⟨idA, dataX 400 4⟩ 2 3
    (flowAt tick1.1 idA) (by decide) (by decide) (by decide) (by decide)

/-! ## End-of-flow lemmas (C2) -/

/-- The update phase does not touch an ID none of the samples carry. -/
theorem findFlow_update_not_sampled (ss : List Sample) (t : Tracker) (now : ℕ)
    (id : SamplerID) (hss : ∀ s ∈ ss, s.id ≠ id) :
    findFlow (update t ss now).flows id = findFlow t.flows id := by
  induction ss generalizing t with
  | nil => rfl
  | cons s ss ih =>
      show findFlow (update (updateOne now t s) ss now).flows id = findFlow t.flows id
      rw [ih (updateOne now t s) (fun s' hs' => hss s' (List.mem_cons_of_mem s hs'))]
      exact findFlow_updateOne_other t s now id (Ne.symm (hss s (List.mem_cons_self s ss)))

/-- Filtering a singleton that satisfies the predicate. -/
theorem filter_singleton_pos {α : Type} (p : α → Bool) (x : α) (h : p x = true) :
    [x].filter p = [x] := by
  simp [List.filter_cons, h]

/-- ID-filter on a cons whose head has the ID. -/
theorem filter_id_cons_pos {a : Flow} {id : SamplerID} (fs : List Flow)
    (h : (a.id == id) = true) :
    (a :: fs).filter (fun g => g.id == id) = a :: fs.filter (fun g => g.id == id) :=
  List.filter_cons_of_pos h

/-- ID-filter on a cons whose head misses the ID. -/
theorem filter_id_cons_neg {a : Flow} {id : SamplerID} (fs : List Flow)
    (h : (a.id == id) = false) :
    (a :: fs).filter (fun g => g.id == id) = fs.filter (fun g => g.id == id) :=
  List.filter_cons_of_neg (by rw [h]; exact Bool.false_ne_true)

/-- With Nodup IDs, filtering the table by the found ID yields exactly the
found flow. -/
theorem filter_id_eq_of_findFlow {fs : List Flow} {id : SamplerID} {f : Flow}
    (hnd : (fs.map (fun f => f.id)).Nodup) (h : findFlow fs id = some f) :
    fs.filter (fun g => g.id == id) = [f] := by
  induction fs with
  | nil => simp [findFlow] at h
  | cons a fs ih =>
      have hnd' := List.nodup_cons.mp
        (show (a.id :: fs.map (fun f => f.id)).Nodup from hnd)
      cases ha : (a.id == id) with
      | true =>
          rw [findFlow_cons_pos _ ha] at h
          injection h with h
          subst h
          rw [filter_id_cons_pos _ ha]
          have hrest : fs.filter (fun g => g.id == id) = [] := by
            rw [List.filter_eq_nil_iff]
            intro g hg hc
            have hgid : g.id = id := by simpa using hc
            have : a.id ∈ fs.map (fun f => f.id) := by
              have hmid : a.id = id := by simpa using ha
              rw [hmid, ← hgid]
              exact List.mem_map_of_mem _ hg
            exact hnd'.1 this
          rw [hrest]
      | false =>
          rw [findFlow_cons_neg _ ha] at h
          rw [filter_id_cons_neg _ ha]
          exact ih hnd'.2 h

/-- updateExisting always moves endTstampNs on non-filtered flows. -/
theorem updateExisting_endTstampNs (s : Sample) (f : Flow) (hnf : f.filtered = false) :
    (updateExisting s f).endTstampNs = s.data.tstampNs := by
  cases hd : (f.data.getLastD defaultData).EquivalentTo s.data with
  | true => rw [updateExisting_dedup s f hnf hd]
  | false => rw [updateExisting_append s f hnf hd]

/-- C2 (amended): a non-filtered flow meeting the minSamples constraint whose
ID is absent from the next tick's samples is ended exactly once — the tick's
output contains exactly one flow with its ID, namely the flow with endTime
and Partial set, carrying its table state unchanged (in particular
endTstampNs, which is the timestamp of the flow's last OBSERVED sample:
the second conjunct shows every observation, deduplicated or not, moves
endTstampNs to its timestamp) — and it is absent from the table afterwards.
The claim's reading "endTstampNs equals the last retained sample's
timestamp" fails when the last observation was deduplicated
(claim2_counterexample). -/
theorem claim2_amended_end_of_flow :
    (∀ (t : Tracker) (ss : List Sample) (now : ℕ) (id : SamplerID) (f : Flow),
        WF t → findFlow t.flows id = some f → f.filtered = false → f.sampled = false →
        (t.minSamples = 0 ∨ t.minSamples ≤ f.data.length) →
        (∀ s ∈ ss, s.id ≠ id) →
        ((Track t ss now).2.filter (fun g => g.id == id)) = [endFlow now f] ∧
        findFlow (Track t ss now).1.flows id = none) ∧
    (∀ (t : Tracker) (s : Sample) (now : ℕ) (f : Flow),
        findFlow t.flows s.id = some f → f.filtered = false →
        (flowAt (updateOne now t s) s.id).endTstampNs = s.data.tstampNs) := by
  constructor
  · intro t ss now id f hWF hfind hnf hsmp hmin hss
    have hWF1 : WF (update t ss now) := wf_update ss t now hWF
    have hfind1 : findFlow (update t ss now).flows id = some f := by
      rw [findFlow_update_not_sampled ss t now id hss]
      exact hfind
    have hfilter1 : (update t ss now).flows.filter (fun g => g.id == id) = [f] :=
      filter_id_eq_of_findFlow hWF1.1 hfind1
    constructor
    · show ((((update t ss now).flows.filter (fun g => !g.sampled)).map
          (endFlow now)).filter (keepEnded (update t ss now))).filter
          (fun g => g.id == id) = [endFlow now f]
      rw [List.filter_comm]
      have e1 : (((update t ss now).flows.filter (fun g => !g.sampled)).map
          (endFlow now)).filter (fun g => g.id == id) =
          (((update t ss now).flows.filter (fun g => !g.sampled)).filter
            (fun g => g.id == id)).map (endFlow now) := by
        rw [List.filter_map]
        congr 1
      rw [e1, List.filter_comm, hfilter1]
      have hfs : ([f].filter (fun g => !g.sampled)) = [f] :=
        filter_singleton_pos _ f (by simp [hsmp])
      rw [hfs]
      have hkeep : keepEnded (update t ss now) (endFlow now f) = true := by
        unfold keepEnded
        have hf1 : (endFlow now f).filtered = f.filtered := rfl
        have hd1 : (endFlow now f).data = f.data := rfl
        rw [hf1, hd1, hnf, update_minSamples]
        rcases hmin with hm | hm
        · simp [hm]
        · simp
          omega
      show ([endFlow now f].filter (keepEnded (update t ss now))) = [endFlow now f]
      exact filter_singleton_pos _ _ hkeep
    · show findFlow (((update t ss now).flows.filter (fun g => g.sampled)).map
          (fun g => { g with sampled := false })) id = none
      unfold findFlow
      rw [List.find?_eq_none]
      intro x hx hc
      obtain ⟨g, hg, hxeq⟩ := List.mem_map.mp hx
      subst hxeq
      have hgid : g.id = id := by simpa using hc
      have hgmem : g ∈ (update t ss now).flows := List.mem_of_mem_filter hg
      have hgfil : g ∈ (update t ss now).flows.filter (fun g' => g'.id == id) :=
        List.mem_filter.mpr ⟨hgmem, by simp [hgid]⟩
      rw [hfilter1] at hgfil
      have hgf : g = f := by simpa using hgfil
      have hgs : g.sampled = true := by
        have := List.mem_filter.mp hg
        simpa using this.2
      rw [hgf, hsmp] at hgs
      exact Bool.noConfusion hgs
  · intro t s now f hfind hnf
    rw [flowAt, findFlow_updateOne_same t s now f hfind, Option.getD_some]
    exact updateExisting_endTstampNs s f hnf

/-- Witness for C2 on the dedup scenario ending at tick 3. -/
theorem claim2_witness :
    ((Track tick2.1 [] 3).2.filter (fun g => g.id == idA)) = [endFlow 3 fA] ∧
    findFlow (Track tick2.1 [] 3).1.flows idA = none ∧
    (flowAt (updateOne 2 tick1.1 ⟨idA, dataX 200 8⟩) idA).endTstampNs = 200 :=
  ⟨(claim2_amended_end_of_flow.1 tick2.1 [] 3 idA fA (by decide) (by decide) (by decide)
      (by decide) (by decide) (by decide)).1,
   (claim2_amended_end_of_flow.1 tick2.1 [] 3 idA fA (by decide) (by decide) (by decide)
      (by decide) (by decide) (by decide)).2,
   claim2_amended_end_of_flow.2 tick1.1 ⟨idA, dataX 200 8⟩ 2 (flowAt tick1.1 idA)
      (by decide) (by decide)⟩

/-- C2 counterexample: the flow's only retained sample has timestamp 100, but
a later equivalent observation (timestamp 200) was deduplicated, so the ended
flow's endTstampNs is 200, not the last retained sample's timestamp. -/
theorem claim2_counterexample :
    tick3.2 = [gEnded] ∧
    gEnded.endTstampNs = 200 ∧
    gEnded.data.map (fun d => d.tstampNs) = [100] ∧
    gEnded.endTstampNs ≠ (gEnded.data.getLastD defaultData).tstampNs := by
  decide

/-! ## Dedup and option flags (C1) -/

/-- optSeen as an existential over the retained samples. -/
theorem optSeen_iff (f : Flow) (opt : ℕ) :
    optSeen f opt = true ↔ ∃ d ∈ f.data, d.options &&& opt ≠ 0 := by
  simp [optSeen]

/-- C1 (amended): a sample equal on the six equivalence fields to the flow's
last appended data — whatever its timestamp and options — is deduplicated: no
row is appended and samplesDeduped increments; consequently the deduplicated
observation leaves every option flag unchanged.  The emitted option flags
(Timestamps=1, SACK=2, ECN=8, ECNSeen=16) aggregate over the flow's retained
(appended) samples only: a flag is true iff some retained sample's options
has the bit set; options of samples dropped by deduplication do not
contribute (the claim's "including samples dropped by deduplication" fails:
claim1_counterexample). -/
theorem claim1_dedup_and_flags :
    (∀ (t : Tracker) (s : Sample) (now : ℕ) (f : Flow),
        findFlow t.flows s.id = some f → f.filtered = false →
        (f.data.getLastD defaultData).EquivalentTo s.data = true →
        (flowAt (updateOne now t s) s.id).data = f.data ∧
        (flowAt (updateOne now t s) s.id).samplesDeduped = f.samplesDeduped + 1 ∧
        ∀ opt : ℕ, optSeen (flowAt (updateOne now t s) s.id) opt = optSeen f opt) ∧
    (∀ (cfg : AConfig) (f : Flow),
        ((analyze cfg f).timestamps = true ↔ ∃ d ∈ f.data, d.options &&& 1 ≠ 0) ∧
        ((analyze cfg f).sack = true ↔ ∃ d ∈ f.data, d.options &&& 2 ≠ 0) ∧
        ((analyze cfg f).ecn = true ↔ ∃ d ∈ f.data, d.options &&& 8 ≠ 0) ∧
        ((analyze cfg f).ecnSeen = true ↔ ∃ d ∈ f.data, d.options &&& 16 ≠ 0)) := by
  constructor
  · intro t s now f hfind hnf heq
    have h1 : flowAt (updateOne now t s) s.id =
        { f with sampled := true, endTstampNs := s.data.tstampNs,
                 samplesDeduped := f.samplesDeduped + 1 } := by
      rw [flowAt, findFlow_updateOne_same t s now f hfind, Option.getD_some,
        updateExisting_dedup s f hnf heq]
    rw [h1]
    exact ⟨rfl, rfl, fun opt => rfl⟩
  · intro cfg f
    exact ⟨optSeen_iff f 1, optSeen_iff f 2, optSeen_iff f 8, optSeen_iff f 16⟩

/-- Witness for C1: a sample with different timestamp and options (ECN bit) is
deduplicated against the retained sample and the flag stays put. -/
theorem claim1_witness :
    (flowAt (updateOne 2 tick1.1 ⟨idA, dataX 200 8⟩) idA).data =
        (flowAt tick1.1 idA).data ∧
    (flowAt (updateOne 2 tick1.1 ⟨idA, dataX 200 8⟩) idA).samplesDeduped =
        (flowAt tick1.1 idA).samplesDeduped + 1 ∧
    optSeen (flowAt (updateOne 2 tick1.1 ⟨idA, dataX 200 8⟩) idA) 8 =
        optSeen (flowAt tick1.1 idA) 8 ∧
    ((analyze cfgD gEnded).ecn = true ↔ ∃ d ∈ gEnded.data, d.options &&& 8 ≠ 0) := by
  have h := claim1_dedup_and_flags.1 tick1.1 ⟨idA, dataX 200 8⟩ 2 (flowAt tick1.1 idA)
    (by decide) (by decide) (by decide)
  exact ⟨h.1, h.2.1, h.2.2 8, (claim1_dedup_and_flags.2 cfgD gEnded).2.2.1⟩

/-- C1 counterexample: the deduplicated observation carried options bit 8
(ECN) but the emitted ECN flag is computed from retained samples only and
stays false, contradicting "true iff the bit was set in any observed sample
including samples dropped by deduplication". -/
theorem claim1_counterexample :
    Data.EquivalentTo (dataX 100 0) (dataX 200 8) = true ∧
    (dataX 200 8).options &&& 8 ≠ 0 ∧
    tick3.2 = [gEnded] ∧
    gEnded.samplesDeduped = 1 ∧
    (analyze cfgD gEnded).ecn = false := by
  refine ⟨by decide, by decide, by decide, by decide, ?_⟩
  show optSeen gEnded 8 = false
  decide

/-! ## Throughput (C3) -/

/-- C3 (amended): the emitted sendThroughputMbps is the spec formula with the
bytes-per-second value truncated to an integer before conversion: the uint64
quotient (10^9 * bytesAcked mod 2^64) / durationWall_ns, times 8, divided by
10^6.  The untruncated spec formula fails (claim3_counterexample). -/
theorem claim3_amended_throughput (cfg : AConfig) (f : Flow) :
    (analyze cfg f).sendThroughputMbps =
      codeThroughputMbps (f.data.getLastD defaultData).bytesAcked (wallDurU64 f) ∧
    (analyze cfg f).sendThroughputMbps =
      ((Nat.floor ((((1000000000 * (f.data.getLastD defaultData).bytesAcked) % 2 ^ 64 : ℕ) : ℚ)
          / ((wallDurU64 f : ℕ) : ℚ)) : ℕ) : ℚ) * 8 / 1000000 := by
  refine ⟨rfl, ?_⟩
  show codeThroughputMbps (f.data.getLastD defaultData).bytesAcked (wallDurU64 f) = _
  unfold codeThroughputMbps
  rw [Nat.floor_div_nat, Nat.floor_natCast]

/-- C3 counterexample: one byte acked over a 3-second wall-clock lifetime —
the integer bytes-per-second quotient truncates to 0, so the emitted
throughput is 0, while the spec formula gives a nonzero value. -/
theorem claim3_counterexample :
    (analyze cfgD slowFlow).sendThroughputMbps = 0 ∧
    specThroughputMbps 1 3000000000 = 1 / 375000 ∧
    (analyze cfgD slowFlow).sendThroughputMbps ≠
      specThroughputMbps (analyze cfgD slowFlow).bytesAcked (wallDurU64 slowFlow) := by
  have hdur : wallDurU64 slowFlow = 3000000000 := by decide
  refine ⟨?_, by norm_num [specThroughputMbps], ?_⟩
  · show codeThroughputMbps 1 (wallDurU64 slowFlow) = 0
    rw [hdur]
    norm_num [codeThroughputMbps]
  · show codeThroughputMbps 1 (wallDurU64 slowFlow) ≠
      specThroughputMbps 1 (wallDurU64 slowFlow)
    rw [hdur]
    norm_num [codeThroughputMbps, specThroughputMbps]

/-! ## Adjusted correlation (C5) -/

/-- C5: under AdjustedCC2 a flow with exactly 2 samples gets correlation 0 —
the Go named return radj keeps its zero value because the n > 2 branch is
skipped and nothing else assigns it — not the unadjusted r the spec states;
here the defined correlation r = 1 is emitted as 0. -/
theorem claim5_code_divergence :
    twoSampleFlow.data.length = 2 ∧
    cfgCC2.adjustedCC1 = false ∧
    cfgCC2.adjustedCC2 = true ∧
    adjustCorrelation cfgCC2 twoSampleFlow 1 = 0 ∧
    (1 : ℝ) ≠ 0 := by
  refine ⟨by decide, by decide, by decide, ?_, one_ne_zero⟩
  unfold adjustCorrelation
  norm_num [cfgCC2, twoSampleFlow]

/-! ## Correlation sentinels (C7) -/

/-- Weighted sum of squared deviations of a constant list about any point. -/
theorem devProdSum_self_const (ws ys : List ℚ) (m c : ℚ) (hlen : ws.length = ys.length)
    (hc : ∀ y ∈ ys, y = c) :
    (List.zipWith (fun w p => w * ((p.1 - m) * (p.2 - m))) ws (ys.zip ys)).sum =
      ((c - m) * (c - m)) * ws.sum := by
  induction ws generalizing ys with
  | nil => simp
  | cons w ws ih =>
      cases ys with
      | nil => simp at hlen
      | cons y ys' =>
          have hy : y = c := hc y (List.mem_cons_self y ys')
          simp only [List.zip_cons_cons, List.zipWith_cons_cons, List.sum_cons]
          rw [ih ys' (by simpa using hlen) (fun z hz => hc z (List.mem_cons_of_mem _ hz)), hy]
          ring

/-- Dot product against a constant list. -/
theorem dotQ_const (ws ys : List ℚ) (c : ℚ) (hlen : ws.length = ys.length)
    (hc : ∀ y ∈ ys, y = c) : dotQ ws ys = c * ws.sum := by
  induction ws generalizing ys with
  | nil => simp [dotQ]
  | cons w ws ih =>
      cases ys with
      | nil => simp at hlen
      | cons y ys' =>
          have hy : y = c := hc y (List.mem_cons_self y ys')
          unfold dotQ at ih ⊢
          simp only [List.zipWith_cons_cons, List.sum_cons]
          rw [ih ys' (by simpa using hlen) (fun z hz => hc z (List.mem_cons_of_mem _ hz)), hy]
          ring

/-- The syy term vanishes for a constant series, whatever the weights. -/
theorem sxyQ_self_const (ys ws : List ℚ) (c : ℚ) (hlen : ws.length = ys.length)
    (hc : ∀ y ∈ ys, y = c) : sxyQ ys ys ws = 0 := by
  unfold sxyQ devProdSum
  rw [devProdSum_self_const ws ys (wmean ys ws) c hlen hc]
  by_cases hS : ws.sum = 0
  · rw [hS]
    ring
  · have hm : wmean ys ws = c := by
      unfold wmean
      rw [dotQ_const ws ys c hlen hc]
      field_simp
    rw [hm]
    ring

/-- sampleWeights has one weight per sample. -/
theorem sampleWeights_length (cfg : AConfig) (f : Flow) :
    (sampleWeights cfg f).length = f.data.length := by
  unfold sampleWeights
  cases hd : f.data with
  | nil => rfl
  | cons d rest =>
      simp only [List.length_cons]
      unfold weightTail
      simp only [List.length_map, List.length_zip, List.length_cons, List.length_tail]
      omega

/-- corrWeights has one weight per sample. -/
theorem corrWeights_length (cfg : AConfig) (f : Flow) :
    (corrWeights cfg f).length = f.data.length := by
  unfold corrWeights
  split
  · simp
  · exact sampleWeights_length cfg f

/-- A flow with constant cwnd has an undefined correlation against any
series: the denominator sxx*syy is zero. -/
theorem corrUndefined_const_cwnd (cfg : AConfig) (f : Flow) (xs : List ℚ) (c : ℕ)
    (hc : ∀ d ∈ f.data, d.sndCwndBytes = c) :
    corrUndefined xs (cwnds f) (corrWeights cfg f) = true := by
  unfold corrUndefined
  have hsyy : sxyQ (cwnds f) (cwnds f) (corrWeights cfg f) = 0 := by
    refine sxyQ_self_const (cwnds f) (corrWeights cfg f) (c : ℚ) ?_ ?_
    · rw [corrWeights_length]
      simp [cwnds]
    · intro y hy
      obtain ⟨d, hd, hyeq⟩ := List.mem_map.mp hy
      rw [← hyeq, hc d hd]
  rw [hsyy]
  simp

/-- C7: a flow with fewer than 2 samples emits all three correlations as the
sentinel -3 (CORR_INSUFFICIENT_SAMPLES); a flow with at least 2 samples and
constant cwnd emits -2 (CORR_UNDEFINED) for all three correlations, the
Pearson correlation being NaN or infinite (denominator sxx*syy = 0). -/
theorem claim7_sentinels :
    (∀ (cfg : AConfig) (f : Flow), f.data.length < 2 →
        (analyze cfg f).corrRTTCwnd = ((CORR_INSUFFICIENT_SAMPLES : ℤ) : ℝ) ∧
        (analyze cfg f).corrRetransCwnd = ((CORR_INSUFFICIENT_SAMPLES : ℤ) : ℝ) ∧
        (analyze cfg f).corrPacingCwnd = ((CORR_INSUFFICIENT_SAMPLES : ℤ) : ℝ)) ∧
    (∀ (cfg : AConfig) (f : Flow) (c : ℕ), 2 ≤ f.data.length →
        (∀ d ∈ f.data, d.sndCwndBytes = c) →
        (analyze cfg f).corrRTTCwnd = ((CORR_UNDEFINED : ℤ) : ℝ) ∧
        (analyze cfg f).corrRetransCwnd = ((CORR_UNDEFINED : ℤ) : ℝ) ∧
        (analyze cfg f).corrPacingCwnd = ((CORR_UNDEFINED : ℤ) : ℝ)) := by
  constructor
  · intro cfg f hlen
    have hn : ¬ (1 < f.data.length) := by omega
    refine ⟨?_, ?_, ?_⟩
    · show corrField cfg f (rtts f) = _
      unfold corrField
      rw [if_neg hn]
      rfl
    · show corrField cfg f (retransPerSec f) = _
      unfold corrField
      rw [if_neg hn]
      rfl
    · show corrField cfg f (pacing f) = _
      unfold corrField
      rw [if_neg hn]
      rfl
  · intro cfg f c hlen hc
    have hn : 1 < f.data.length := by omega
    have hu := corrUndefined_const_cwnd cfg f
    refine ⟨?_, ?_, ?_⟩
    · show corrField cfg f (rtts f) = _
      unfold corrField
      rw [if_pos hn, if_pos (hu (rtts f) c hc)]
      rfl
    · show corrField cfg f (retransPerSec f) = _
      unfold corrField
      rw [if_pos hn, if_pos (hu (retransPerSec f) c hc)]
      rfl
    · show corrField cfg f (pacing f) = _
      unfold corrField
      rw [if_pos hn, if_pos (hu (pacing f) c hc)]
      rfl

/-- Witness for C7 on a one-sample flow and a two-sample constant-cwnd
flow. -/
theorem claim7_witness :
    (analyze cfgD oneSampleFlow).corrRTTCwnd = ((CORR_INSUFFICIENT_SAMPLES : ℤ) : ℝ) ∧
    (analyze cfgD oneSampleFlow).corrRetransCwnd = ((CORR_INSUFFICIENT_SAMPLES : ℤ) : ℝ) ∧
    (analyze cfgD oneSampleFlow).corrPacingCwnd = ((CORR_INSUFFICIENT_SAMPLES : ℤ) : ℝ) ∧
    (analyze cfgD constCwndFlow).corrRTTCwnd = ((CORR_UNDEFINED : ℤ) : ℝ) ∧
    (analyze cfgD constCwndFlow).corrRetransCwnd = ((CORR_UNDEFINED : ℤ) : ℝ) ∧
    (analyze cfgD constCwndFlow).corrPacingCwnd = ((CORR_UNDEFINED : ℤ) : ℝ) := by
  have h1 := claim7_sentinels.1 cfgD oneSampleFlow (by decide)
  have h2 := claim7_sentinels.2 cfgD constCwndFlow 14480 (by decide) (by decide)
  exact ⟨h1.1, h1.2.1, h1.2.2, h2.1, h2.2.1, h2.2.2⟩

/-! ## One-sample weights (C10) -/

/-- C10: a one-sample flow gets the weight vector [0] (make zero-fills, the
delta loop never runs, and the median branch needs more than one weight), so
in weighted-quantile mode the seven-number summary is computed with weight
list [0], total weight zero. -/
theorem claim10_one_sample_weights (cfg : AConfig) (f : Flow)
    (h : f.data.length = 1) :
    sampleWeights cfg f = [0] ∧
    (cfg.unweightedQuantiles = false →
      sevenNumWeights cfg f (rtts f) = [0] ∧
      (sevenNumWeights cfg f (rtts f)).sum = 0) := by
  obtain ⟨d, hd⟩ := List.length_eq_one.mp h
  have hw : sampleWeights cfg f = [0] := by
    unfold sampleWeights weightTail
    rw [hd]
    simp
  refine ⟨hw, fun huq => ?_⟩
  have hr : rtts f = [usToMs d.rttUs] := by
    unfold rtts
    rw [hd]
    rfl
  have hwts : sevenNumWeights cfg f (rtts f) = [0] := by
    unfold sevenNumWeights sevenNumData
    rw [if_neg (by rw [huq]; exact Bool.false_ne_true), hr, hw]
    simp [sortPairs, insertPairAsc]
  exact ⟨hwts, by rw [hwts]; simp⟩

/-- Witness for C10 on a concrete one-sample flow. -/
theorem claim10_witness :
    sampleWeights cfgD oneSampleFlow = [0] ∧
    sevenNumWeights cfgD oneSampleFlow (rtts oneSampleFlow) = [0] ∧
    (sevenNumWeights cfgD oneSampleFlow (rtts oneSampleFlow)).sum = 0 := by
  have h := claim10_one_sample_weights cfgD oneSampleFlow (by decide)
  exact ⟨h.1, (h.2 (by decide)).1, (h.2 (by decide)).2⟩

/-! ## Port-filter bytecode (C4) -/

/-- The op cost of one range predicate (pfops_count's loop body). -/
theorem pfopsCount_cons (eqS : Bool) (r : ℕ × ℕ) (a : ℕ × ℕ) (l : List (ℕ × ℕ)) :
    pfopsCount eqS (r :: a :: l) =
      (if eqS && r.1 == r.2 then 3 else 5) + pfopsCount eqS (a :: l) := by
  unfold pfopsCount
  have h1 : ((r :: a :: l).isEmpty) = false := rfl
  have h2 : ((a :: l).isEmpty) = false := rfl
  rw [h1, h2, if_neg Bool.false_ne_true, if_neg Bool.false_ne_true]
  simp only [List.map_cons, List.sum_cons]
  have h3 : (3 : ℕ) ≤ (if eqS && a.1 == a.2 then 3 else 5) := by split <;> omega
  omega

/-- pfops emits exactly pfops_count ops. -/
theorem pfops_length (eqS dest : Bool) (rops : ℕ) :
    ∀ rs : List (ℕ × ℕ), (pfops eqS dest rops rs).length = pfopsCount eqS rs
  | [] => rfl
  | [r] => by
      show (predOps eqS dest rops r).length = pfopsCount eqS [r]
      unfold predOps pfopsCount
      cases hc : (eqS && r.1 == r.2) with
      | true =>
          have h' : eqS = true ∧ r.1 = r.2 := by simpa using hc
          simp [hc, h']
      | false =>
          have h' : ¬ (eqS = true ∧ r.1 = r.2) := by simpa using hc
          simp [hc, h']
  | r :: a :: l => by
      show (predOps eqS dest 0 r ++
          (⟨BC_JMP, 4, (1 + pfopsCount eqS (a :: l)) * 4⟩ : Op) ::
          pfops eqS dest rops (a :: l)).length = pfopsCount eqS (r :: a :: l)
      rw [List.length_append, List.length_cons, pfops_length eqS dest rops (a :: l),
        pfopsCount_cons]
      cases hc : (eqS && r.1 == r.2) <;> simp [predOps, hc] <;> omega

/-- opTest on the equality opcode of a direction. -/
theorem opTest_eq (sp dp port : ℕ) (dest : Bool) :
    opTest sp dp port (if dest then BC_D_EQ else BC_S_EQ) =
      ((if dest then dp else sp) == port) := by
  cases dest <;>
    simp [opTest, BC_JMP, BC_S_GE, BC_S_LE, BC_D_GE, BC_D_LE, BC_S_EQ, BC_D_EQ]

/-- opTest on the GE opcode of a direction. -/
theorem opTest_ge (sp dp port : ℕ) (dest : Bool) :
    opTest sp dp port (if dest then BC_D_GE else BC_S_GE) =
      decide (port ≤ (if dest then dp else sp)) := by
  cases dest <;>
    simp [opTest, BC_JMP, BC_S_GE, BC_S_LE, BC_D_GE, BC_D_LE, BC_S_EQ, BC_D_EQ]

/-- opTest on the LE opcode of a direction. -/
theorem opTest_le (sp dp port : ℕ) (dest : Bool) :
    opTest sp dp port (if dest then BC_D_LE else BC_S_LE) =
      decide ((if dest then dp else sp) ≤ port) := by
  cases dest <;>
    simp [opTest, BC_JMP, BC_S_GE, BC_S_LE, BC_D_GE, BC_D_LE, BC_S_EQ, BC_D_EQ]

/-- opTest on JMP is always false (the kernel sets yes = 0). -/
theorem opTest_jmp (sp dp port : ℕ) : opTest sp dp port BC_JMP = false := by
  simp [opTest]

/-- A step of inet_diag_bc_run whose taken offset is 4k with the target in
range: jumping exactly to the end of the program (accept, k = 1+|rest|) and
jumping within it agree with running the suffix. -/
theorem bcRun_jump_to (sp dp : ℕ) (op : Op) (rest : List Op) (k : ℕ)
    (hoff : (if opTest sp dp (rest.headD default).no op.code then op.yes else op.no) = 4 * k)
    (hk : 1 ≤ k) (hle : k ≤ 1 + rest.length) :
    bcRun sp dp (op :: rest) = bcRun sp dp (rest.drop (k - 1)) := by
  rw [bcRun]
  simp only [hoff]
  have h1 : ¬ (4 * k % 4 ≠ 0 ∨ 4 * k = 0) := by omega
  rw [if_neg h1]
  by_cases h2 : k = 1 + rest.length
  · have : ¬ (4 * (1 + rest.length) < 4 * k) := by omega
    rw [if_neg this, if_pos (by omega)]
    have : rest.drop (k - 1) = [] := by
      apply List.drop_eq_nil_of_le
      omega
    rw [this, bcRun]
  · have hlt : k < 1 + rest.length := by omega
    have h3 : ¬ (4 * (1 + rest.length) < 4 * k) := by omega
    rw [if_neg h3, if_neg (by omega)]
    have : 4 * k / 4 = k := by omega
    rw [this]

/-- A step of inet_diag_bc_run whose taken offset lands past the end of the
program: rejection. -/
theorem bcRun_jump_past (sp dp : ℕ) (op : Op) (rest : List Op) (k : ℕ)
    (hoff : (if opTest sp dp (rest.headD default).no op.code then op.yes else op.no) = 4 * k)
    (hgt : 1 + rest.length < k) :
    bcRun sp dp (op :: rest) = false := by
  rw [bcRun]
  simp only [hoff]
  have h1 : ¬ (4 * k % 4 ≠ 0 ∨ 4 * k = 0) := by omega
  rw [if_neg h1, if_pos (by omega)]

/-- Running the last predicate of a direction: a matching port falls through
to the rest of the program, a non-matching one jumps rops+1 ops past the end
of the remaining rops ops (terminal reject). -/
theorem bcRun_pred_last (eqS dest : Bool) (sp dp rops : ℕ) (r : ℕ × ℕ) (T : List Op)
    (hT : T.length = rops) :
    bcRun sp dp (predOps eqS dest rops r ++ T) =
      if inRange (if dest then dp else sp) r then bcRun sp dp T else false := by
  cases hc : (eqS && r.1 == r.2) with
  | true =>
      have hr2 : r.1 = r.2 := (by simpa using hc : eqS = true ∧ r.1 = r.2).2
      unfold predOps
      rw [if_pos hc]
      simp only [List.cons_append, List.nil_append]
      cases hm : ((if dest then dp else sp) == r.1) with
      | true =>
          have hp : (if dest then dp else sp) = r.1 := by simpa using hm
          have hoff : (if opTest sp dp r.1 (if dest then BC_D_EQ else BC_S_EQ)
              then (8 : ℕ) else (rops + 3) * 4) = 4 * 2 := by
            rw [opTest_eq, hm, if_pos rfl]
          rw [bcRun_jump_to sp dp
            ⟨if dest then BC_D_EQ else BC_S_EQ, 8, (rops + 3) * 4⟩
            ((⟨0, 0, r.1⟩ : Op) :: T) 2 hoff (by omega)
            (by simp only [List.length_cons]; omega)]
          have hdrop : ((⟨0, 0, r.1⟩ : Op) :: T).drop (2 - 1) = T := rfl
          rw [hdrop]
          have hin : inRange (if dest then dp else sp) r = true := by
            unfold inRange
            rw [hp, ← hr2]
            simp
          rw [if_pos hin]
      | false =>
          have hp : ¬ ((if dest then dp else sp) = r.1) := by simpa using hm
          have hoff : (if opTest sp dp r.1 (if dest then BC_D_EQ else BC_S_EQ)
              then (8 : ℕ) else (rops + 3) * 4) = 4 * (rops + 3) := by
            rw [opTest_eq, hm, if_neg Bool.false_ne_true]
            omega
          rw [bcRun_jump_past sp dp
            ⟨if dest then BC_D_EQ else BC_S_EQ, 8, (rops + 3) * 4⟩
            ((⟨0, 0, r.1⟩ : Op) :: T) (rops + 3) hoff
            (by simp only [List.length_cons]; omega)]
          have hnin : ¬ (inRange (if dest then dp else sp) r = true) := by
            simp only [inRange, ← hr2, Bool.and_eq_true, decide_eq_true_eq]
            omega
          rw [if_neg hnin]
  | false =>
      unfold predOps
      rw [if_neg (by rw [hc]; exact Bool.false_ne_true)]
      simp only [List.cons_append, List.nil_append]
      cases hge : (decide (r.1 ≤ (if dest then dp else sp))) with
      | false =>
          have hgep : ¬ (r.1 ≤ (if dest then dp else sp)) := by simpa using hge
          have hoff : (if opTest sp dp r.1 (if dest then BC_D_GE else BC_S_GE)
              then (8 : ℕ) else (rops + 5) * 4) = 4 * (rops + 5) := by
            rw [opTest_ge, hge, if_neg Bool.false_ne_true]
            omega
          rw [bcRun_jump_past sp dp
            ⟨if dest then BC_D_GE else BC_S_GE, 8, (rops + 5) * 4⟩
            ((⟨0, 0, r.1⟩ : Op) ::
              (⟨if dest then BC_D_LE else BC_S_LE, 8, (rops + 3) * 4⟩ : Op) ::
              (⟨0, 0, r.2⟩ : Op) :: T) (rops + 5) hoff
            (by simp only [List.length_cons]; omega)]
          have hnin : ¬ (inRange (if dest then dp else sp) r = true) := by
            simp only [inRange, Bool.and_eq_true, decide_eq_true_eq]
            omega
          rw [if_neg hnin]
      | true =>
          have hgep : r.1 ≤ (if dest then dp else sp) := by simpa using hge
          have hoff : (if opTest sp dp r.1 (if dest then BC_D_GE else BC_S_GE)
              then (8 : ℕ) else (rops + 5) * 4) = 4 * 2 := by
            rw [opTest_ge, hge, if_pos rfl]
          rw [bcRun_jump_to sp dp
            ⟨if dest then BC_D_GE else BC_S_GE, 8, (rops + 5) * 4⟩
            ((⟨0, 0, r.1⟩ : Op) ::
              (⟨if dest then BC_D_LE else BC_S_LE, 8, (rops + 3) * 4⟩ : Op) ::
              (⟨0, 0, r.2⟩ : Op) :: T) 2 hoff (by omega)
            (by simp only [List.length_cons]; omega)]
          have hdrop : ((⟨0, 0, r.1⟩ : Op) ::
              (⟨if dest then BC_D_LE else BC_S_LE, 8, (rops + 3) * 4⟩ : Op) ::
              (⟨0, 0, r.2⟩ : Op) :: T).drop (2 - 1) =
              (⟨if dest then BC_D_LE else BC_S_LE, 8, (rops + 3) * 4⟩ : Op) ::
              (⟨0, 0, r.2⟩ : Op) :: T := rfl
          rw [hdrop]
          cases hle : (decide ((if dest then dp else sp) ≤ r.2)) with
          | true =>
              have hlep : (if dest then dp else sp) ≤ r.2 := by simpa using hle
              have hoff2 : (if opTest sp dp r.2 (if dest then BC_D_LE else BC_S_LE)
                  then (8 : ℕ) else (rops + 3) * 4) = 4 * 2 := by
                rw [opTest_le, hle, if_pos rfl]
              rw [bcRun_jump_to sp dp
                ⟨if dest then BC_D_LE else BC_S_LE, 8, (rops + 3) * 4⟩
                ((⟨0, 0, r.2⟩ : Op) :: T) 2 hoff2 (by omega)
                (by simp only [List.length_cons]; omega)]
              have hdrop2 : ((⟨0, 0, r.2⟩ : Op) :: T).drop (2 - 1) = T := rfl
              rw [hdrop2]
              have hin : inRange (if dest then dp else sp) r = true := by
                simp only [inRange, Bool.and_eq_true, decide_eq_true_eq]
                exact ⟨hgep, hlep⟩
              rw [if_pos hin]
          | false =>
              have hlep : ¬ ((if dest then dp else sp) ≤ r.2) := by simpa using hle
              have hoff2 : (if opTest sp dp r.2 (if dest then BC_D_LE else BC_S_LE)
                  then (8 : ℕ) else (rops + 3) * 4) = 4 * (rops + 3) := by
                rw [opTest_le, hle, if_neg Bool.false_ne_true]
                omega
              rw [bcRun_jump_past sp dp
                ⟨if dest then BC_D_LE else BC_S_LE, 8, (rops + 3) * 4⟩
                ((⟨0, 0, r.2⟩ : Op) :: T) (rops + 3) hoff2
                (by simp only [List.length_cons]; omega)]
              have hnin : ¬ (inRange (if dest then dp else sp) r = true) := by
                simp only [inRange, Bool.and_eq_true, decide_eq_true_eq]
                omega
              rw [if_neg hnin]

/-- Running the JMP that follows a successful non-last predicate: it skips
the remaining ops of the direction block. -/
theorem bcRun_jmp_block (sp dp : ℕ) (R T : List Op) :
    bcRun sp dp ((⟨BC_JMP, 4, (1 + R.length) * 4⟩ : Op) :: (R ++ T)) = bcRun sp dp T := by
  have hoff : (if opTest sp dp ((R ++ T).headD default).no BC_JMP then (4 : ℕ)
      else (1 + R.length) * 4) = 4 * (1 + R.length) := by
    rw [opTest_jmp, if_neg Bool.false_ne_true]
    omega
  rw [bcRun_jump_to sp dp ⟨BC_JMP, 4, (1 + R.length) * 4⟩ (R ++ T) (1 + R.length) hoff
    (by omega) (by simp only [List.length_append]; omega)]
  have h1 : 1 + R.length - 1 = R.length := by omega
  rw [h1, List.drop_left]

/-- Running a non-last predicate with its trailing JMP: a matching port
short-circuits to past the direction block, a non-matching one falls to the
next predicate. -/
theorem bcRun_pred_mid (eqS dest : Bool) (sp dp : ℕ) (r : ℕ × ℕ) (R T : List Op) :
    bcRun sp dp (predOps eqS dest 0 r ++
        ((⟨BC_JMP, 4, (1 + R.length) * 4⟩ : Op) :: (R ++ T))) =
      if inRange (if dest then dp else sp) r then bcRun sp dp T
      else bcRun sp dp (R ++ T) := by
  cases hc : (eqS && r.1 == r.2) with
  | true =>
      have hr2 : r.1 = r.2 := (by simpa using hc : eqS = true ∧ r.1 = r.2).2
      unfold predOps
      rw [if_pos hc]
      simp only [List.cons_append, List.nil_append]
      cases hm : ((if dest then dp else sp) == r.1) with
      | true =>
          have hp : (if dest then dp else sp) = r.1 := by simpa using hm
          have hoff : (if opTest sp dp r.1 (if dest then BC_D_EQ else BC_S_EQ)
              then (8 : ℕ) else (0 + 3) * 4) = 4 * 2 := by
            rw [opTest_eq, hm, if_pos rfl]
          rw [bcRun_jump_to sp dp
            ⟨if dest then BC_D_EQ else BC_S_EQ, 8, (0 + 3) * 4⟩
            ((⟨0, 0, r.1⟩ : Op) :: (⟨BC_JMP, 4, (1 + R.length) * 4⟩ : Op) :: (R ++ T)) 2 hoff
            (by omega) (by simp only [List.length_cons]; omega)]
          have hdrop : ((⟨0, 0, r.1⟩ : Op) ::
              (⟨BC_JMP, 4, (1 + R.length) * 4⟩ : Op) :: (R ++ T)).drop (2 - 1) =
              (⟨BC_JMP, 4, (1 + R.length) * 4⟩ : Op) :: (R ++ T) := rfl
          rw [hdrop, bcRun_jmp_block]
          have hin : inRange (if dest then dp else sp) r = true := by
            unfold inRange
            rw [hp, ← hr2]
            simp
          rw [if_pos hin]
      | false =>
          have hp : ¬ ((if dest then dp else sp) = r.1) := by simpa using hm
          have hoff : (if opTest sp dp r.1 (if dest then BC_D_EQ else BC_S_EQ)
              then (8 : ℕ) else (0 + 3) * 4) = 4 * 3 := by
            rw [opTest_eq, hm, if_neg Bool.false_ne_true]
          rw [bcRun_jump_to sp dp
            ⟨if dest then BC_D_EQ else BC_S_EQ, 8, (0 + 3) * 4⟩
            ((⟨0, 0, r.1⟩ : Op) :: (⟨BC_JMP, 4, (1 + R.length) * 4⟩ : Op) :: (R ++ T)) 3 hoff
            (by omega) (by simp only [List.length_cons, List.length_append]; omega)]
          have hdrop : ((⟨0, 0, r.1⟩ : Op) ::
              (⟨BC_JMP, 4, (1 + R.length) * 4⟩ : Op) :: (R ++ T)).drop (3 - 1) = R ++ T := rfl
          rw [hdrop]
          have hnin : ¬ (inRange (if dest then dp else sp) r = true) := by
            simp only [inRange, ← hr2, Bool.and_eq_true, decide_eq_true_eq]
            omega
          rw [if_neg hnin]
  | false =>
      unfold predOps
      rw [if_neg (by rw [hc]; exact Bool.false_ne_true)]
      simp only [List.cons_append, List.nil_append]
      cases hge : (decide (r.1 ≤ (if dest then dp else sp))) with
      | false =>
          have hgep : ¬ (r.1 ≤ (if dest then dp else sp)) := by simpa using hge
          have hoff : (if opTest sp dp r.1 (if dest then BC_D_GE else BC_S_GE)
              then (8 : ℕ) else (0 + 5) * 4) = 4 * 5 := by
            rw [opTest_ge, hge, if_neg Bool.false_ne_true]
          rw [bcRun_jump_to sp dp
            ⟨if dest then BC_D_GE else BC_S_GE, 8, (0 + 5) * 4⟩
            ((⟨0, 0, r.1⟩ : Op) ::
              (⟨if dest then BC_D_LE else BC_S_LE, 8, (0 + 3) * 4⟩ : Op) ::
              (⟨0, 0, r.2⟩ : Op) ::
              (⟨BC_JMP, 4, (1 + R.length) * 4⟩ : Op) :: (R ++ T)) 5 hoff
            (by omega) (by simp only [List.length_cons, List.length_append]; omega)]
          have hdrop : ((⟨0, 0, r.1⟩ : Op) ::
              (⟨if dest then BC_D_LE else BC_S_LE, 8, (0 + 3) * 4⟩ : Op) ::
              (⟨0, 0, r.2⟩ : Op) ::
              (⟨BC_JMP, 4, (1 + R.length) * 4⟩ : Op) :: (R ++ T)).drop (5 - 1) = R ++ T := rfl
          rw [hdrop]
          have hnin : ¬ (inRange (if dest then dp else sp) r = true) := by
            simp only [inRange, Bool.and_eq_true, decide_eq_true_eq]
            omega
          rw [if_neg hnin]
      | true =>
          have hgep : r.1 ≤ (if dest then dp else sp) := by simpa using hge
          have hoff : (if opTest sp dp r.1 (if dest then BC_D_GE else BC_S_GE)
              then (8 : ℕ) else (0 + 5) * 4) = 4 * 2 := by
            rw [opTest_ge, hge, if_pos rfl]
          rw [bcRun_jump_to sp dp
            ⟨if dest then BC_D_GE else BC_S_GE, 8, (0 + 5) * 4⟩
            ((⟨0, 0, r.1⟩ : Op) ::
              (⟨if dest then BC_D_LE else BC_S_LE, 8, (0 + 3) * 4⟩ : Op) ::
              (⟨0, 0, r.2⟩ : Op) ::
              (⟨BC_JMP, 4, (1 + R.length) * 4⟩ : Op) :: (R ++ T)) 2 hoff
            (by omega) (by simp only [List.length_cons]; omega)]
          have hdrop : ((⟨0, 0, r.1⟩ : Op) ::
              (⟨if dest then BC_D_LE else BC_S_LE, 8, (0 + 3) * 4⟩ : Op) ::
              (⟨0, 0, r.2⟩ : Op) ::
              (⟨BC_JMP, 4, (1 + R.length) * 4⟩ : Op) :: (R ++ T)).drop (2 - 1) =
              (⟨if dest then BC_D_LE else BC_S_LE, 8, (0 + 3) * 4⟩ : Op) ::
              (⟨0, 0, r.2⟩ : Op) ::
              (⟨BC_JMP, 4, (1 + R.length) * 4⟩ : Op) :: (R ++ T) := rfl
          rw [hdrop]
          cases hle : (decide ((if dest then dp else sp) ≤ r.2)) with
          | true =>
              have hlep : (if dest then dp else sp) ≤ r.2 := by simpa using hle
              have hoff2 : (if opTest sp dp r.2 (if dest then BC_D_LE else BC_S_LE)
                  then (8 : ℕ) else (0 + 3) * 4) = 4 * 2 := by
                rw [opTest_le, hle, if_pos rfl]
              rw [bcRun_jump_to sp dp
                ⟨if dest then BC_D_LE else BC_S_LE, 8, (0 + 3) * 4⟩
                ((⟨0, 0, r.2⟩ : Op) ::
                  (⟨BC_JMP, 4, (1 + R.length) * 4⟩ : Op) :: (R ++ T)) 2 hoff2
                (by omega) (by simp only [List.length_cons]; omega)]
              have hdrop2 : ((⟨0, 0, r.2⟩ : Op) ::
                  (⟨BC_JMP, 4, (1 + R.length) * 4⟩ : Op) :: (R ++ T)).drop (2 - 1) =
                  (⟨BC_JMP, 4, (1 + R.length) * 4⟩ : Op) :: (R ++ T) := rfl
              rw [hdrop2, bcRun_jmp_block]
              have hin : inRange (if dest then dp else sp) r = true := by
                simp only [inRange, Bool.and_eq_true, decide_eq_true_eq]
                exact ⟨hgep, hlep⟩
              rw [if_pos hin]
          | false =>
              have hlep : ¬ ((if dest then dp else sp) ≤ r.2) := by simpa using hle
              have hoff2 : (if opTest sp dp r.2 (if dest then BC_D_LE else BC_S_LE)
                  then (8 : ℕ) else (0 + 3) * 4) = 4 * 3 := by
                rw [opTest_le, hle, if_neg Bool.false_ne_true]
              rw [bcRun_jump_to sp dp
                ⟨if dest then BC_D_LE else BC_S_LE, 8, (0 + 3) * 4⟩
                ((⟨0, 0, r.2⟩ : Op) ::
                  (⟨BC_JMP, 4, (1 + R.length) * 4⟩ : Op) :: (R ++ T)) 3 hoff2
                (by omega) (by simp only [List.length_cons, List.length_append]; omega)]
              have hdrop2 : ((⟨0, 0, r.2⟩ : Op) ::
                  (⟨BC_JMP, 4, (1 + R.length) * 4⟩ : Op) :: (R ++ T)).drop (3 - 1) =
                  R ++ T := rfl
              rw [hdrop2]
              have hnin : ¬ (inRange (if dest then dp else sp) r = true) := by
                simp only [inRange, Bool.and_eq_true, decide_eq_true_eq]
                omega
              rw [if_neg hnin]

/-- Running one whole direction block: accepted through to the rest of the
program iff the direction is unconfigured or the port matches some range;
rejected (false) otherwise.  T is the rest of the program, whose length must
equal the rops the block was emitted with. -/
theorem bcRun_pfops (eqS dest : Bool) (sp dp rops : ℕ) :
    ∀ (rs : List (ℕ × ℕ)) (T : List Op), T.length = rops →
      bcRun sp dp (pfops eqS dest rops rs ++ T) =
        if rs.isEmpty || matchDir (if dest then dp else sp) rs then bcRun sp dp T
        else false
  | [], T, hT => by
      show bcRun sp dp ([] ++ T) = _
      simp [matchDir]
  | [r], T, hT => by
      show bcRun sp dp (predOps eqS dest rops r ++ T) = _
      rw [bcRun_pred_last eqS dest sp dp rops r T hT]
      have hm : matchDir (if dest then dp else sp) [r] =
          inRange (if dest then dp else sp) r := by
        simp [matchDir]
      simp only [List.isEmpty_cons, Bool.false_or, hm]
  | r :: a :: l, T, hT => by
      show bcRun sp dp ((predOps eqS dest 0 r ++
          (⟨BC_JMP, 4, (1 + pfopsCount eqS (a :: l)) * 4⟩ : Op) ::
          pfops eqS dest rops (a :: l)) ++ T) = _
      rw [List.append_assoc, List.cons_append,
        ← pfops_length eqS dest rops (a :: l),
        bcRun_pred_mid eqS dest sp dp r (pfops eqS dest rops (a :: l)) T,
        bcRun_pfops eqS dest sp dp rops (a :: l) T hT]
      cases hin : inRange (if dest then dp else sp) r with
      | true =>
          rw [if_pos rfl]
          have hmd : matchDir (if dest then dp else sp) (r :: a :: l) = true := by
            simp [matchDir, List.any_cons]
            left
            exact hin
          rw [hmd]
          simp
      | false =>
          rw [if_neg Bool.false_ne_true]
          have hmd : matchDir (if dest then dp else sp) (r :: a :: l) =
              matchDir (if dest then dp else sp) (a :: l) := by
            simp only [matchDir, List.any_cons, hin, Bool.false_or]
          rw [hmd]
          simp only [List.isEmpty_cons, Bool.false_or]

/-- bcRun accepts the empty program (len = 0). -/
theorem bcRun_nil (sp dp : ℕ) : bcRun sp dp [] = true := by
  rw [bcRun]

/-- The audit accepts the empty program. -/
theorem bcCheck_nil (chk : ℕ → ℕ → Bool) : bcCheck chk [] = true := by
  rw [bcCheck]

/-- One audit step: when the op's code and both offsets check out and the yes
step (4k bytes) stays inside, auditing continues at the op the yes offset
reaches. -/
theorem bcCheck_cons (chk : ℕ → ℕ → Bool) (op : Op) (rest : List Op) (k : ℕ)
    (hcode : codeOK op.code = true)
    (hno : chk op.no (4 * (1 + rest.length)) = true)
    (hyes : chk op.yes (4 * (1 + rest.length)) = true)
    (hyesk : op.yes = 4 * k)
    (hk : k ≤ 1 + rest.length) :
    bcCheck chk (op :: rest) = bcCheck chk (rest.drop (k - 1)) := by
  rw [bcCheck, hcode, hno, hyes]
  have h1 : op.yes / 4 = k := by omega
  rw [h1]
  simp [hk]

/-- The equality/comparison codes of both directions are recognized. -/
theorem codeOK_dir (dest : Bool) :
    codeOK (if dest then BC_D_EQ else BC_S_EQ) = true ∧
    codeOK (if dest then BC_D_GE else BC_S_GE) = true ∧
    codeOK (if dest then BC_D_LE else BC_S_LE) = true := by
  cases dest <;> exact ⟨rfl, rfl, rfl⟩

/-- Auditing one whole direction block succeeds and continues with the rest
of the program, whose length must equal the rops the block was emitted
with (the last predicate's reject offsets land exactly one op past the
program end). -/
theorem bcCheck_pfops (eqS dest : Bool) (rops : ℕ) :
    ∀ (rs : List (ℕ × ℕ)) (T : List Op), T.length = rops →
      bcCheck chkOff (pfops eqS dest rops rs ++ T) = bcCheck chkOff T
  | [], T, hT => by
      show bcCheck chkOff ([] ++ T) = _
      rw [List.nil_append]
  | [r], T, hT => by
      show bcCheck chkOff (predOps eqS dest rops r ++ T) = _
      cases hc : (eqS && r.1 == r.2) with
      | true =>
          unfold predOps
          rw [if_pos hc]
          simp only [List.cons_append, List.nil_append]
          rw [bcCheck_cons chkOff ⟨if dest then BC_D_EQ else BC_S_EQ, 8, (rops + 3) * 4⟩
            ((⟨0, 0, r.1⟩ : Op) :: T) 2 (codeOK_dir dest).1
            (by simp only [chkOff, List.length_cons]; simp; all_goals omega)
            (by simp only [chkOff, List.length_cons]; simp; all_goals omega)
            rfl (by simp only [List.length_cons]; omega)]
          have hdrop : ((⟨0, 0, r.1⟩ : Op) :: T).drop (2 - 1) = T := rfl
          rw [hdrop]
      | false =>
          unfold predOps
          rw [if_neg (by rw [hc]; exact Bool.false_ne_true)]
          simp only [List.cons_append, List.nil_append]
          rw [bcCheck_cons chkOff ⟨if dest then BC_D_GE else BC_S_GE, 8, (rops + 5) * 4⟩
            ((⟨0, 0, r.1⟩ : Op) ::
              (⟨if dest then BC_D_LE else BC_S_LE, 8, (rops + 3) * 4⟩ : Op) ::
              (⟨0, 0, r.2⟩ : Op) :: T) 2 (codeOK_dir dest).2.1
            (by simp only [chkOff, List.length_cons]; simp; all_goals omega)
            (by simp only [chkOff, List.length_cons]; simp; all_goals omega)
            rfl (by simp only [List.length_cons]; omega)]
          have hdrop : ((⟨0, 0, r.1⟩ : Op) ::
              (⟨if dest then BC_D_LE else BC_S_LE, 8, (rops + 3) * 4⟩ : Op) ::
              (⟨0, 0, r.2⟩ : Op) :: T).drop (2 - 1) =
              (⟨if dest then BC_D_LE else BC_S_LE, 8, (rops + 3) * 4⟩ : Op) ::
              (⟨0, 0, r.2⟩ : Op) :: T := rfl
          rw [hdrop,
            bcCheck_cons chkOff ⟨if dest then BC_D_LE else BC_S_LE, 8, (rops + 3) * 4⟩
              ((⟨0, 0, r.2⟩ : Op) :: T) 2 (codeOK_dir dest).2.2
              (by simp only [chkOff, List.length_cons]; simp; all_goals omega)
              (by simp only [chkOff, List.length_cons]; simp; all_goals omega)
              rfl (by simp only [List.length_cons]; omega)]
          have hdrop2 : ((⟨0, 0, r.2⟩ : Op) :: T).drop (2 - 1) = T := rfl
          rw [hdrop2]
  | r :: a :: l, T, hT => by
      show bcCheck chkOff ((predOps eqS dest 0 r ++
          (⟨BC_JMP, 4, (1 + pfopsCount eqS (a :: l)) * 4⟩ : Op) ::
          pfops eqS dest rops (a :: l)) ++ T) = _
      rw [List.append_assoc, List.cons_append,
        ← pfops_length eqS dest rops (a :: l)]
      have hjmp : bcCheck chkOff
          ((⟨BC_JMP, 4, (1 + (pfops eqS dest rops (a :: l)).length) * 4⟩ : Op) ::
            (pfops eqS dest rops (a :: l) ++ T)) =
          bcCheck chkOff (pfops eqS dest rops (a :: l) ++ T) := by
        rw [bcCheck_cons chkOff
          ⟨BC_JMP, 4, (1 + (pfops eqS dest rops (a :: l)).length) * 4⟩
          (pfops eqS dest rops (a :: l) ++ T) 1 rfl
          (by simp only [chkOff, List.length_append]; simp; all_goals omega)
          (by simp only [chkOff, List.length_append]; simp; all_goals omega)
          rfl (by simp only [List.length_append]; omega)]
        rfl
      cases hc : (eqS && r.1 == r.2) with
      | true =>
          unfold predOps
          rw [if_pos hc]
          simp only [List.cons_append, List.nil_append]
          rw [bcCheck_cons chkOff ⟨if dest then BC_D_EQ else BC_S_EQ, 8, (0 + 3) * 4⟩
            ((⟨0, 0, r.1⟩ : Op) ::
              (⟨BC_JMP, 4, (1 + (pfops eqS dest rops (a :: l)).length) * 4⟩ : Op) ::
              (pfops eqS dest rops (a :: l) ++ T)) 2 (codeOK_dir dest).1
            (by simp only [chkOff, List.length_cons, List.length_append]; simp;
                all_goals omega)
            (by simp only [chkOff, List.length_cons, List.length_append]; simp;
                all_goals omega)
            rfl (by simp only [List.length_cons, List.length_append]; omega)]
          have hdrop : ((⟨0, 0, r.1⟩ : Op) ::
              (⟨BC_JMP, 4, (1 + (pfops eqS dest rops (a :: l)).length) * 4⟩ : Op) ::
              (pfops eqS dest rops (a :: l) ++ T)).drop (2 - 1) =
              (⟨BC_JMP, 4, (1 + (pfops eqS dest rops (a :: l)).length) * 4⟩ : Op) ::
              (pfops eqS dest rops (a :: l) ++ T) := rfl
          rw [hdrop, hjmp, bcCheck_pfops eqS dest rops (a :: l) T hT]
      | false =>
          unfold predOps
          rw [if_neg (by rw [hc]; exact Bool.false_ne_true)]
          simp only [List.cons_append, List.nil_append]
          rw [bcCheck_cons chkOff ⟨if dest then BC_D_GE else BC_S_GE, 8, (0 + 5) * 4⟩
            ((⟨0, 0, r.1⟩ : Op) ::
              (⟨if dest then BC_D_LE else BC_S_LE, 8, (0 + 3) * 4⟩ : Op) ::
              (⟨0, 0, r.2⟩ : Op) ::
              (⟨BC_JMP, 4, (1 + (pfops eqS dest rops (a :: l)).length) * 4⟩ : Op) ::
              (pfops eqS dest rops (a :: l) ++ T)) 2 (codeOK_dir dest).2.1
            (by simp only [chkOff, List.length_cons, List.length_append]; simp;
                all_goals omega)
            (by simp only [chkOff, List.length_cons, List.length_append]; simp;
                all_goals omega)
            rfl (by simp only [List.length_cons, List.length_append]; omega)]
          have hdrop : ((⟨0, 0, r.1⟩ : Op) ::
              (⟨if dest then BC_D_LE else BC_S_LE, 8, (0 + 3) * 4⟩ : Op) ::
              (⟨0, 0, r.2⟩ : Op) ::
              (⟨BC_JMP, 4, (1 + (pfops eqS dest rops (a :: l)).length) * 4⟩ : Op) ::
              (pfops eqS dest rops (a :: l) ++ T)).drop (2 - 1) =
              (⟨if dest then BC_D_LE else BC_S_LE, 8, (0 + 3) * 4⟩ : Op) ::
              (⟨0, 0, r.2⟩ : Op) ::
              (⟨BC_JMP, 4, (1 + (pfops eqS dest rops (a :: l)).length) * 4⟩ : Op) ::
              (pfops eqS dest rops (a :: l) ++ T) := rfl
          rw [hdrop,
            bcCheck_cons chkOff ⟨if dest then BC_D_LE else BC_S_LE, 8, (0 + 3) * 4⟩
              ((⟨0, 0, r.2⟩ : Op) ::
                (⟨BC_JMP, 4, (1 + (pfops eqS dest rops (a :: l)).length) * 4⟩ : Op) ::
                (pfops eqS dest rops (a :: l) ++ T)) 2 (codeOK_dir dest).2.2
              (by simp only [chkOff, List.length_cons, List.length_append]; simp;
                  all_goals omega)
              (by simp only [chkOff, List.length_cons, List.length_append]; simp;
                  all_goals omega)
              rfl (by simp only [List.length_cons, List.length_append]; omega)]
          have hdrop2 : ((⟨0, 0, r.2⟩ : Op) ::
              (⟨BC_JMP, 4, (1 + (pfops eqS dest rops (a :: l)).length) * 4⟩ : Op) ::
              (pfops eqS dest rops (a :: l) ++ T)).drop (2 - 1) =
              (⟨BC_JMP, 4, (1 + (pfops eqS dest rops (a :: l)).length) * 4⟩ : Op) ::
              (pfops eqS dest rops (a :: l) ++ T) := rfl
          rw [hdrop2, hjmp, bcCheck_pfops eqS dest rops (a :: l) T hT]

/-- C4 (amended): for every legal port-range configuration that yields a
filter, the emitted bytecode is well-formed in the kernel-audit sense — every
jump offset is a positive multiple of 4 landing on a 4-byte op boundary no
more than 4 bytes (one op) past the end of the program, the walk staying
inside — and interpreting it accepts exactly the packets whose ports match
some configured range in each configured direction.  The claim's "never past
the end of the program" fails: terminal rejects jump exactly one op past the
end (claim4_counterexample). -/
theorem claim4_amended_filter :
    ∀ (eqS : Bool) (sports dports : List (ℕ × ℕ)) (prog : List Op),
      nl_port_filter eqS sports dports = some prog →
      bcCheck chkOff prog = true ∧
      ∀ sp dp : ℕ, bcRun sp dp prog =
        ((sports.isEmpty || matchDir sp sports) &&
         (dports.isEmpty || matchDir dp dports)) := by
  intro eqS sports dports prog hfilter
  unfold nl_port_filter at hfilter
  by_cases hboth : (sports.isEmpty && dports.isEmpty) = true
  · rw [if_pos hboth] at hfilter
    exact absurd hfilter (by simp)
  · rw [if_neg hboth] at hfilter
    injection hfilter with hprog
    subst hprog
    constructor
    · rw [bcCheck_pfops eqS false (pfopsCount eqS dports) sports (pfops eqS true 0 dports)
        (pfops_length eqS true 0 dports),
        ← List.append_nil (pfops eqS true 0 dports),
        bcCheck_pfops eqS true 0 dports [] rfl,
        bcCheck_nil]
    · intro sp dp
      rw [bcRun_pfops eqS false sp dp (pfopsCount eqS dports) sports
        (pfops eqS true 0 dports) (pfops_length eqS true 0 dports)]
      have hsp : (if (false : Bool) then dp else sp) = sp := rfl
      rw [hsp]
      have h2 : bcRun sp dp (pfops eqS true 0 dports) =
          ((dports.isEmpty || matchDir dp dports) : Bool) := by
        rw [← List.append_nil (pfops eqS true 0 dports),
          bcRun_pfops eqS true sp dp 0 dports [] rfl]
        have hdp : (if (true : Bool) then dp else sp) = dp := rfl
        rw [hdp, bcRun_nil]
        cases h : (dports.isEmpty || matchDir dp dports) with
        | true => rw [if_pos rfl]
        | false => rw [if_neg Bool.false_ne_true]
      rw [h2]
      cases hs : (sports.isEmpty || matchDir sp sports) with
      | true =>
          rw [if_pos rfl]
          simp
      | false =>
          rw [if_neg Bool.false_ne_true]
          simp

/-- C4 counterexample: the filter for destination port 80 (with equality-op
support) is 8 bytes long, yet its reject offset is 12 — one whole op past
the end of the program — so the emitted jump offsets do land past the end;
this is the kernel's canonical terminal reject, one op past the end and
4-byte aligned, which the audit-style check accepts. -/
theorem claim4_counterexample :
    nl_port_filter true [] [(80, 80)] =
      some [⟨BC_D_EQ, 8, 12⟩, ⟨0, 0, 80⟩] ∧
    bcCheck chkOffStrict [(⟨BC_D_EQ, 8, 12⟩ : Op), ⟨0, 0, 80⟩] = false ∧
    bcCheck chkOff [(⟨BC_D_EQ, 8, 12⟩ : Op), ⟨0, 0, 80⟩] = true ∧
    4 * ([(⟨BC_D_EQ, 8, 12⟩ : Op), ⟨0, 0, 80⟩].length) < 12 := by
  refine ⟨rfl, ?_, ?_, by decide⟩
  · rw [bcCheck]
    rfl
  · rw [bcCheck]
    have h1 : ([(⟨0, 0, 80⟩ : Op)].drop (8 / 4 - 1)) = [] := rfl
    simp [chkOff, codeOK, BC_D_EQ, BC_JMP, BC_S_GE, BC_S_LE, BC_D_GE, BC_D_LE, BC_S_EQ,
      bcCheck_nil, h1]

/-- Witness for C4: the source-ports-{10..20, 443} filter (no equality op)
audits cleanly under the kernel bound, accepts source port 15 and 443, and
rejects source port 21. -/
theorem claim4_witness :
    bcCheck chkOff ((nl_port_filter false [(10, 20), (443, 443)] []).getD []) = true ∧
    bcRun 15 1 ((nl_port_filter false [(10, 20), (443, 443)] []).getD []) = true ∧
    bcRun 443 1 ((nl_port_filter false [(10, 20), (443, 443)] []).getD []) = true ∧
    bcRun 21 1 ((nl_port_filter false [(10, 20), (443, 443)] []).getD []) = false := by
  have h := claim4_amended_filter false [(10, 20), (443, 443)] []
    ((nl_port_filter false [(10, 20), (443, 443)] []).getD []) rfl
  refine ⟨h.1, ?_, ?_, ?_⟩
  · rw [h.2 15 1]
    decide
  · rw [h.2 443 1]
    decide
  · rw [h.2 21 1]
    decide

end Cgmon
